import Mathlib

/-!
Verification development for the Order-Flow-Imbalance (OFI) feature
pipeline (`src/ofi.py`).  The pandas/numpy data model is shallowly
embedded: a float cell is an `FVal` (a rational number, NaN, a signed
infinity, or a string cell as used by the `symbol` column), a DataFrame
is a `Frame` (an ordered list of named columns over a row index), and a
resampled bar table is a `Bar` (a list of timestamped rows).  NaN
semantics follow IEEE/numpy: every comparison with NaN is false, NaN
propagates through arithmetic, and division of a nonzero number by zero
yields a signed infinity.
-/

/-- A pandas cell value: a (rational) number, NaN, a signed infinity
(`true` = positive), or a string (for the `symbol` column). -/
inductive FVal where
  | num : ℚ → FVal
  | nan : FVal
  | inf : Bool → FVal
  | str : String → FVal
deriving DecidableEq

/-- NaN test (`pd.isna` on a float cell). -/
def FVal.isNan : FVal → Bool
  | FVal.nan => true
  | _ => false

/-- Numeric value with default 0 (used only to read the timestamp column,
which is numeric in every input the pipeline accepts). -/
def FVal.toNumD : FVal → ℚ
  | FVal.num q => q
  | _ => 0

/-- IEEE negation. -/
def fneg : FVal → FVal
  | FVal.num a => FVal.num (-a)
  | FVal.inf s => FVal.inf (!s)
  | _ => FVal.nan

/-- IEEE addition on embedded floats. -/
def fadd : FVal → FVal → FVal
  | FVal.num a, FVal.num b => FVal.num (a + b)
  | FVal.inf s, FVal.num _ => FVal.inf s
  | FVal.num _, FVal.inf s => FVal.inf s
  | FVal.inf s, FVal.inf t => if s = t then FVal.inf s else FVal.nan
  | _, _ => FVal.nan

/-- IEEE subtraction. -/
def fsub (a b : FVal) : FVal := fadd a (fneg b)

/-- IEEE multiplication. -/
def fmul : FVal → FVal → FVal
  | FVal.num a, FVal.num b => FVal.num (a * b)
  | FVal.inf s, FVal.num b =>
      if b = 0 then FVal.nan else if 0 < b then FVal.inf s else FVal.inf (!s)
  | FVal.num a, FVal.inf s =>
      if a = 0 then FVal.nan else if 0 < a then FVal.inf s else FVal.inf (!s)
  | FVal.inf s, FVal.inf t => FVal.inf (s = t)
  | _, _ => FVal.nan

/-- IEEE division: a nonzero number divided by zero is a signed infinity,
0/0 is NaN, NaN propagates. -/
def fdiv : FVal → FVal → FVal
  | FVal.num a, FVal.num b =>
      if b = 0 then (if a = 0 then FVal.nan else FVal.inf (decide (0 < a)))
      else FVal.num (a / b)
  | FVal.num _, FVal.inf _ => FVal.num 0
  | FVal.inf s, FVal.num b => if b < 0 then FVal.inf (!s) else FVal.inf s
  | _, _ => FVal.nan

/-- IEEE strict greater-than: false whenever either side is NaN. -/
def fgt : FVal → FVal → Bool
  | FVal.num a, FVal.num b => decide (b < a)
  | FVal.inf s, FVal.num _ => s
  | FVal.num _, FVal.inf s => !s
  | FVal.inf s, FVal.inf t => s && !t
  | _, _ => false

/-- IEEE strict less-than: false whenever either side is NaN. -/
def flt (a b : FVal) : Bool := fgt b a

/-- IEEE equality test: false whenever either side is NaN. -/
def feqv : FVal → FVal → Bool
  | FVal.num a, FVal.num b => decide (a = b)
  | FVal.inf s, FVal.inf t => decide (s = t)
  | FVal.str a, FVal.str b => decide (a = b)
  | _, _ => false

/-- numpy `nansum` with `min_count=1` (pandas `.sum(min_count=1)`):
skip NaNs, and return NaN when no non-NaN value contributes. -/
def sumMin1 (l : List FVal) : FVal :=
  match l.filter (fun v => !v.isNan) with
  | [] => FVal.nan
  | x :: rest => rest.foldl fadd x

/-- pandas `.mean()` (skipna): mean of the non-NaN values, NaN when there
are none. -/
def meanF (l : List FVal) : FVal :=
  match l.filter (fun v => !v.isNan) with
  | [] => FVal.nan
  | x :: rest => fdiv (rest.foldl fadd x) (FVal.num ((rest.length : ℚ) + 1))

/-- Three-list `zipWith`, used to embed elementwise `np.where`. -/
def zipWith3 (f : α → β → γ → δ) : List α → List β → List γ → List δ
  | a :: as, b :: bs, c :: cs => f a b c :: zipWith3 f as bs cs
  | _, _, _ => []

/-- Keep the entries of `xs` whose mask bit is `true` (boolean indexing of
a pandas column). -/
def applyMask (xs : List α) (mask : List Bool) : List α :=
  ((xs.zip mask).filter (fun pr => pr.2)).map (fun pr => pr.1)

/-- Sorted union of two index lists (pandas aligns binary operations on
the union of the two indexes). -/
def mergeUnion : List ℚ → List ℚ → List ℚ
  | [], ys => ys
  | x :: xs, [] => x :: xs
  | x :: xs, y :: ys =>
      if x < y then x :: mergeUnion xs (y :: ys)
      else if y < x then y :: mergeUnion (x :: xs) ys
      else x :: mergeUnion xs ys
termination_by xs ys => xs.length + ys.length

/-- A pandas DataFrame: a row index together with named columns. -/
structure Frame where
  idx : List ℚ
  cols : List (String × List FVal)
deriving DecidableEq

/-- Column lookup; a missing column reads as the empty column. -/
def Frame.getCol (f : Frame) (n : String) : List FVal :=
  match f.cols.find? (fun c => decide (c.1 = n)) with
  | some c => c.2
  | none => []

/-- Helper for `Frame.setCol`: replace the first column of that name in
place, or append a new column at the end (pandas `df[name] = series`). -/
def setColAux : List (String × List FVal) → String → List FVal → List (String × List FVal)
  | [], n, v => [(n, v)]
  | c :: rest, n, v => if c.1 = n then (n, v) :: rest else c :: setColAux rest n v

/-- pandas column assignment `df[name] = series`. -/
def Frame.setCol (f : Frame) (n : String) (v : List FVal) : Frame :=
  ⟨f.idx, setColAux f.cols n v⟩

/-- The column names, in order. -/
def Frame.colNames (f : Frame) : List String := f.cols.map (fun c => c.1)

/-- `df.empty`: no rows. -/
def Frame.isEmpty (f : Frame) : Bool := f.idx.isEmpty

/-- Boolean-mask row selection `df[mask]`. -/
def Frame.filterRows (f : Frame) (mask : List Bool) : Frame :=
  ⟨applyMask f.idx mask, f.cols.map (fun c => (c.1, applyMask c.2 mask))⟩

/-- Numeric view of a column (used for `ts_event`). -/
def getColQ (f : Frame) (n : String) : List ℚ := (f.getCol n).map FVal.toNumD

/-- A bar-level table: named level columns and one timestamped row per
retained bucket. -/
structure Bar where
  names : List String
  rows : List (ℚ × List FVal)
deriving DecidableEq

/-- The bucket timestamps of the bar table. -/
def Bar.times (bar : Bar) : List ℚ := bar.rows.map (fun r => r.1)

/-- The row at timestamp `t`; a missing row reads as all-NaN (pandas
alignment semantics). -/
def Bar.rowAt (bar : Bar) (t : ℚ) : List FVal :=
  match bar.rows.find? (fun r => decide (r.1 = t)) with
  | some r => r.2
  | none => bar.names.map (fun _ => FVal.nan)

/-- The value at timestamp `t` and column position `j`. -/
def Bar.valAt (bar : Bar) (t : ℚ) (j : Nat) : FVal := (bar.rowAt t).getD j FVal.nan

/-- Series lookup by timestamp with NaN for a missing entry. -/
def seriesLookup (s : List (ℚ × FVal)) (t : ℚ) : FVal :=
  match s.find? (fun pr => decide (pr.1 = t)) with
  | some pr => pr.2
  | none => FVal.nan

/-!  Column names of `src/ofi.py` (`f"{side}_px_{level:02d}"`, ...). -/

/-- Two-digit zero-padded level tag, as produced by `{level:02d}`. -/
def pad2 (m : Nat) : String := if m < 10 then "0" ++ toString m else toString m

/-- The book side of a quote column. -/
inductive Side where
  | bid : Side
  | ask : Side
deriving DecidableEq

/-- `{side}_px_{level:02d}`. -/
def pxName : Side → Nat → String
  | Side.bid, m => "bid_px_" ++ pad2 m
  | Side.ask, m => "ask_px_" ++ pad2 m

/-- `{side}_sz_{level:02d}`. -/
def szName : Side → Nat → String
  | Side.bid, m => "bid_sz_" ++ pad2 m
  | Side.ask, m => "ask_sz_" ++ pad2 m

/-- `of_bid_{level:02d}`. -/
def ofBidName (m : Nat) : String := "of_bid_" ++ pad2 m

/-- `of_ask_{level:02d}`. -/
def ofAskName (m : Nat) : String := "of_ask_" ++ pad2 m

/-- `ofi_{level:02d}`. -/
def ofiName (m : Nat) : String := "ofi_" ++ pad2 m

/-- `depth_{level:02d}`. -/
def depthName (m : Nat) : String := "depth_" ++ pad2 m

/-- `ts_event`. -/
def tsEventName : String := "ts_event"

/-- `symbol`. -/
def symbolName : String := "symbol"

/-- `LEVELS = tuple(range(10))`. -/
def LEVELS : List Nat := List.range 10

/-!  `_side_flow` (src/ofi.py lines 22-59). -/

/-- `Series.diff()`: NaN first element, then consecutive differences. -/
def diffF : List FVal → List FVal
  | [] => []
  | x :: xs => FVal.nan :: List.zipWith fsub xs (x :: xs)

/-- Core of `_side_flow` on the price and size series of one side/level:
`np.where(dp > 0, q, np.where(dp == 0, dq, -q))` on the bid side and the
mirrored `np.where(dp < 0, -q, np.where(dp == 0, dq, q))` on the ask side,
elementwise over `dp = p.diff()`, `q`, `dq = q.diff()`.  NaN comparisons
are false, so a NaN `dp` falls through to the innermost branch. -/
def sideFlowSeries (side : Side) (p q : List FVal) : List FVal :=
  let dp := diffF p
  let dq := diffF q
  match side with
  | Side.bid =>
      zipWith3 (fun d qi di =>
        if fgt d (FVal.num 0) then qi
        else if feqv d (FVal.num 0) then di
        else fneg qi) dp q dq
  | Side.ask =>
      zipWith3 (fun d qi di =>
        if flt d (FVal.num 0) then fneg qi
        else if feqv d (FVal.num 0) then di
        else qi) dp q dq

/-- `_side_flow(df, side, level)`: read the price/size columns and apply
the three-branch rule. -/
def sideFlow (df : Frame) (side : Side) (level : Nat) : List FVal :=
  sideFlowSeries side (df.getCol (pxName side level)) (df.getCol (szName side level))

/-!  `add_level_ofi` (src/ofi.py lines 65-84). -/

/-- One iteration of the `for m in LEVELS` loop of `add_level_ofi`:
assign `of_bid_m`, `of_ask_m` and `ofi_m = of_bid_m - of_ask_m` on the
output frame, reading from the frame as updated so far. -/
def levelStep (a : Frame) (m : Nat) : Frame :=
  let s1 := a.setCol (ofBidName m) (sideFlow a Side.bid m)
  let s2 := s1.setCol (ofAskName m) (sideFlow s1 Side.ask m)
  s2.setCol (ofiName m) (List.zipWith fsub (s2.getCol (ofBidName m)) (s2.getCol (ofAskName m)))

/-- `add_level_ofi(df)`: `out = df.copy()` then the per-level loop.  The
first component is the state of the caller's frame after the call (the
copy leaves it untouched), the second is the returned frame. -/
def add_level_ofi (df : Frame) : Frame × Frame := (df, LEVELS.foldl levelStep df)

/-!  `aggregate_ofi` (src/ofi.py lines 87-132). -/

/-- The bucket label of timestamp `t` at frequency `freq`: wall-clock
alignment, i.e. the greatest multiple of `freq` not exceeding `t`. -/
def bucketOf (freq t : ℚ) : ℚ := (⌊t / freq⌋ : ℤ) * freq

/-- The resampling grid: every bucket label from the first message's
bucket to the last message's bucket, in steps of `freq` (pandas
`.resample(freq)` materialises all intermediate buckets). -/
def bucketGrid (freq : ℚ) (ts : List ℚ) : List ℚ :=
  match ts.map (bucketOf freq) with
  | [] => []
  | b :: bs =>
      (List.range ((⌊(bs.foldl max b - bs.foldl min b) / freq⌋).toNat + 1)).map
        (fun i : Nat => bs.foldl min b + (i : ℚ) * freq)

/-- The column values whose timestamp falls in bucket `b`. -/
def valuesInBucket (freq : ℚ) (ts : List ℚ) (col : List FVal) (b : ℚ) : List FVal :=
  ((ts.zip col).filter (fun pr => decide (bucketOf freq pr.1 = b))).map (fun pr => pr.2)

/-- `df.set_index("ts_event")[cols].resample(freq).agg(...).dropna()`:
one row per grid bucket holding the per-column aggregate of the messages
in that bucket, with every row containing a NaN dropped (`dropna`). -/
def resampleDropna (agg : List FVal → FVal) (freq : ℚ) (ts : List ℚ)
    (cols : List (String × List FVal)) : Bar :=
  { names := cols.map (fun c => c.1),
    rows := (bucketGrid freq ts).filterMap (fun b =>
      let row := cols.map (fun c => agg (valuesInBucket freq ts c.2 b))
      if row.any FVal.isNan then none else some (b, row)) }

/-- The `ofi_<level>` columns of the frame, in level order. -/
def ofiFrameCols (df : Frame) : List (String × List FVal) :=
  LEVELS.map (fun m => (ofiName m, df.getCol (ofiName m)))

/-- The unnormalised bar table:
`df.set_index("ts_event")[ofi_cols].resample(freq).sum(min_count=1).dropna()`. -/
def barOf (df : Frame) (freq : ℚ) : Bar :=
  resampleDropna sumMin1 freq (getColQ df tsEventName) (ofiFrameCols df)

/-- One iteration of the depth loop of `aggregate_ofi`:
`df[f'depth_{m:02d}'] = df[f"bid_sz_{m:02d}"] + df[f"ask_sz_{m:02d}"]`,
written into the caller's frame itself. -/
def depthStep (a : Frame) (m : Nat) : Frame :=
  a.setCol (depthName m)
    (List.zipWith fadd (a.getCol (szName Side.bid m)) (a.getCol (szName Side.ask m)))

/-- The caller's frame after the depth loop (the input is mutated in
place by `aggregate_ofi` when `normalise=True`). -/
def dfWithDepth (df : Frame) : Frame := LEVELS.foldl depthStep df

/-- The `depth_<level>` columns of the (mutated) frame. -/
def depthFrameCols (df2 : Frame) : List (String × List FVal) :=
  LEVELS.map (fun m => (depthName m, df2.getCol (depthName m)))

/-- The per-bucket normalisation divisor series:
`df.set_index("ts_event")[depth_cols].resample(freq).mean().dropna()`,
then `.mean(axis=1) / 2`. -/
def depthBarOf (df : Frame) (freq : ℚ) : List (ℚ × FVal) :=
  let df2 := dfWithDepth df
  ((resampleDropna meanF freq (getColQ df2 tsEventName) (depthFrameCols df2)).rows).map
    (fun r => (r.1, fdiv (meanF r.2) (FVal.num 2)))

/-- `bar.div(depth_bar, axis=0)`: align the bar index and the divisor
index on their union, divide each row by the divisor at its timestamp,
with a missing side read as NaN. -/
def barDiv (bar : Bar) (dvs : List (ℚ × FVal)) : Bar :=
  { names := bar.names,
    rows := (mergeUnion bar.times (dvs.map (fun d => d.1))).map (fun t =>
      (t, (bar.rowAt t).map (fun v => fdiv v (seriesLookup dvs t)))) }

/-- `aggregate_ofi(df, freq, normalise=...)`.  The first component is the
state of the caller's frame after the call (with `normalise=True` the
depth columns have been written into it), the second the returned bar
table. -/
def aggregate_ofi (df : Frame) (freq : ℚ) (normalise : Bool) : Frame × Bar :=
  if normalise then (dfWithDepth df, barDiv (barOf df freq) (depthBarOf df freq))
  else (df, barOf df freq)

/-!  `integrated_ofi` (src/ofi.py lines 135-152). -/

/-- `w /= np.sum(np.abs(w))`: L1 rescaling of the leading PCA weight
vector. -/
def l1Scale (w : List ℚ) : List ℚ := w.map (fun x => x / (w.map (fun y => abs y)).sum)

/-- Dot product of a bar row with a rational weight vector (`ofi_bar @ w`
rowwise). -/
def dotF (xs : List FVal) (w : List ℚ) : FVal :=
  match List.zipWith (fun v c => fmul v (FVal.num c)) xs w with
  | [] => FVal.num 0
  | y :: ys => ys.foldl fadd y

/-- `integrated_ofi(ofi_bar, n_components)`: the PCA fit itself is
performed by scikit-learn outside this repository, and its leading
component `w0` (sign-ambiguous, see spec design notes) is taken as a
parameter; the function body then rescales `w0` to unit L1 norm and
returns, per bar, the dot product of that bar's level-OFI row with the
rescaled vector. -/
def integrated_ofi (ofi_bar : Bar) (w0 : List ℚ) : List (ℚ × FVal) :=
  let w := l1Scale w0
  ofi_bar.rows.map (fun r => (r.1, dotF r.2 w))

/-!  `multi_asset_ofi` (src/ofi.py lines 160-201). -/

/-- `raw_df["symbol"] == sym` as a boolean mask. -/
def symbolMask (raw : Frame) (sym : String) : List Bool :=
  (raw.getCol symbolName).map (fun v => decide (v = FVal.str sym))

/-- The `for sym in symbols` loop of `multi_asset_ofi`: slice the raw
frame per symbol, raise `KeyError` when the slice is empty, otherwise run
`add_level_ofi` and `aggregate_ofi` and collect the per-symbol bar
tables. -/
def buildSymbolBars (raw : Frame) (freq : ℚ) (normalise : Bool) :
    List String → Except String (List (String × Bar))
  | [] => Except.ok []
  | sym :: rest =>
      let sym_df := raw.filterRows (symbolMask raw sym)
      if sym_df.isEmpty then Except.error ("symbol " ++ sym ++ " not found in raw_df")
      else
        let msg_df := (add_level_ofi sym_df).2
        let bar_df := (aggregate_ofi msg_df freq normalise).2
        match buildSymbolBars raw freq normalise rest with
        | Except.ok frames => Except.ok ((sym, bar_df) :: frames)
        | Except.error e => Except.error e

/-- The intersection of the per-symbol bucket timestamps (`pd.concat`
with `join="inner"`). -/
def interTimes : List (String × Bar) → List ℚ
  | [] => []
  | f :: rest =>
      if rest.isEmpty then f.2.times
      else f.2.times.filter (fun t => (interTimes rest).any (fun s => decide (s = t)))

/-- Restrict every per-symbol bar table to the common timestamps. -/
def alignBars (frames : List (String × Bar)) : List (String × Bar) :=
  let ts := interTimes frames
  frames.map (fun f =>
    (f.1, { names := f.2.names,
            rows := f.2.rows.filter (fun r => ts.any (fun s => decide (s = r.1))) }))

/-- `multi_asset_ofi(raw_df, symbols, freq=..., normalise=...)`: build the
per-symbol bar tables and align them on the intersection of their bucket
timestamps; any symbol with zero raw rows raises before any output is
produced. -/
def multi_asset_ofi (raw : Frame) (symbols : List String) (freq : ℚ) (normalise : Bool) :
    Except String (List (String × Bar)) :=
  match buildSymbolBars raw freq normalise symbols with
  | Except.ok frames => Except.ok (alignBars frames)
  | Except.error e => Except.error e

/-!  Elementwise access lemmas. -/

lemma get?_eq_some_getD {α : Type _} (d : α) :
    ∀ (l : List α) (i : Nat), i < l.length → l[i]? = some (l.getD i d)
  | a :: l, 0, _ => by simp
  | a :: l, i + 1, h => by
      simpa using get?_eq_some_getD d l i (by simpa using h)

lemma zipWith_get? (f : α → β → γ) :
    ∀ (as : List α) (bs : List β) (i : Nat),
      (List.zipWith f as bs)[i]? = as[i]?.bind (fun a => (bs[i]?).map (f a))
  | [], _, _ => by simp
  | _ :: _, [], _ => by simp
  | a :: as, b :: bs, 0 => by simp
  | a :: as, b :: bs, i + 1 => by
      simpa using zipWith_get? f as bs i

lemma zipWith3_get? (f : α → β → γ → δ) :
    ∀ (as : List α) (bs : List β) (cs : List γ) (i : Nat),
      (zipWith3 f as bs cs)[i]? =
        as[i]?.bind (fun a => bs[i]?.bind (fun b => (cs[i]?).map (f a b)))
  | [], _, _, _ => by simp [zipWith3]
  | _ :: _, [], _, _ => by simp [zipWith3]
  | _ :: _, _ :: _, [], _ => by simp [zipWith3]
  | a :: as, b :: bs, c :: cs, 0 => by simp [zipWith3]
  | a :: as, b :: bs, c :: cs, i + 1 => by
      simpa [zipWith3] using zipWith3_get? f as bs cs i

lemma diffF_get? :
    ∀ (l : List FVal) (i : Nat),
      (diffF l)[i + 1]? = l[i + 1]?.bind (fun a => (l[i]?).map (fun b => fsub a b))
  | [], i => by simp [diffF]
  | x :: xs, i => by
      simp [diffF, zipWith_get? fsub xs (x :: xs)]

lemma map_get? (f : α → β) :
    ∀ (l : List α) (i : Nat), (l.map f)[i]? = (l[i]?).map f
  | [], _ => by simp
  | a :: l, 0 => by simp
  | a :: l, i + 1 => by simp [map_get? f l i]

lemma fsub_num (a b : ℚ) : fsub (FVal.num a) (FVal.num b) = FVal.num (a - b) := by
  simp [fsub, fadd, fneg, sub_eq_add_neg]

lemma fgt_num (a b : ℚ) : fgt (FVal.num a) (FVal.num b) = decide (b < a) := rfl

lemma flt_num (a b : ℚ) : flt (FVal.num a) (FVal.num b) = decide (a < b) := rfl

lemma feqv_num (a b : ℚ) : feqv (FVal.num a) (FVal.num b) = decide (a = b) := rfl

lemma fneg_num (a : ℚ) : fneg (FVal.num a) = FVal.num (-a) := rfl

/-- C1: for every price/size series of one side and one level and every
row that has a previous row, the level flow follows the three-branch sign
rule: on the bid side a price increase gives `q`, an unchanged price
gives `dq`, a price decrease gives `-q`; the ask side is the mirror
(price decrease gives `-q`, unchanged `dq`, increase `q`). -/
theorem C1_side_flow_sign_rule (pL qL : List ℚ) (i : Nat)
    (hi : i + 1 < pL.length) (hq : qL.length = pL.length) :
    (sideFlowSeries Side.bid (pL.map FVal.num) (qL.map FVal.num))[i + 1]? =
      some (if pL.getD i 0 < pL.getD (i + 1) 0 then FVal.num (qL.getD (i + 1) 0)
        else if pL.getD (i + 1) 0 = pL.getD i 0 then
          FVal.num (qL.getD (i + 1) 0 - qL.getD i 0)
        else FVal.num (-qL.getD (i + 1) 0)) ∧
    (sideFlowSeries Side.ask (pL.map FVal.num) (qL.map FVal.num))[i + 1]? =
      some (if pL.getD (i + 1) 0 < pL.getD i 0 then FVal.num (-qL.getD (i + 1) 0)
        else if pL.getD (i + 1) 0 = pL.getD i 0 then
          FVal.num (qL.getD (i + 1) 0 - qL.getD i 0)
        else FVal.num (qL.getD (i + 1) 0)) := by
  have hi0 : i < pL.length := Nat.lt_of_succ_lt hi
  have hqi : i + 1 < qL.length := by omega
  have hqi0 : i < qL.length := by omega
  have hp1 : (pL.map FVal.num)[i + 1]? = some (FVal.num (pL.getD (i + 1) 0)) := by
    rw [map_get?, get?_eq_some_getD (0 : ℚ) pL (i + 1) hi]; rfl
  have hp0 : (pL.map FVal.num)[i]? = some (FVal.num (pL.getD i 0)) := by
    rw [map_get?, get?_eq_some_getD (0 : ℚ) pL i hi0]; rfl
  have hq1 : (qL.map FVal.num)[i + 1]? = some (FVal.num (qL.getD (i + 1) 0)) := by
    rw [map_get?, get?_eq_some_getD (0 : ℚ) qL (i + 1) hqi]; rfl
  have hq0 : (qL.map FVal.num)[i]? = some (FVal.num (qL.getD i 0)) := by
    rw [map_get?, get?_eq_some_getD (0 : ℚ) qL i hqi0]; rfl
  have hdp : (diffF (pL.map FVal.num))[i + 1]? =
      some (FVal.num (pL.getD (i + 1) 0 - pL.getD i 0)) := by
    rw [diffF_get?, hp1, hp0]; simp [fsub_num]
  have hdq : (diffF (qL.map FVal.num))[i + 1]? =
      some (FVal.num (qL.getD (i + 1) 0 - qL.getD i 0)) := by
    rw [diffF_get?, hq1, hq0]; simp [fsub_num]
  constructor
  · have hdef : sideFlowSeries Side.bid (pL.map FVal.num) (qL.map FVal.num) =
        zipWith3 (fun d qi di =>
          if fgt d (FVal.num 0) then qi
          else if feqv d (FVal.num 0) then di
          else fneg qi) (diffF (pL.map FVal.num)) (qL.map FVal.num)
          (diffF (qL.map FVal.num)) := rfl
    rw [hdef, zipWith3_get?, hdp, hq1, hdq]
    simp only [Option.some_bind, Option.map_some', Option.some.injEq]
    rcases lt_trichotomy (pL.getD i 0) (pL.getD (i + 1) 0) with h | h | h
    · have h1 : (0 : ℚ) < pL.getD (i + 1) 0 - pL.getD i 0 := sub_pos.mpr h
      have hc : fgt (FVal.num (pL.getD (i + 1) 0 - pL.getD i 0)) (FVal.num 0) = true := by
        rw [fgt_num]; exact decide_eq_true h1
      rw [if_pos hc, if_pos h]
    · have h1 : pL.getD (i + 1) 0 - pL.getD i 0 = 0 := by rw [h]; ring
      have hc1 : ¬ fgt (FVal.num (pL.getD (i + 1) 0 - pL.getD i 0)) (FVal.num 0) = true := by
        rw [fgt_num, h1]; simp
      have hc2 : feqv (FVal.num (pL.getD (i + 1) 0 - pL.getD i 0)) (FVal.num 0) = true := by
        rw [feqv_num]; exact decide_eq_true h1
      have hr : ¬ pL.getD i 0 < pL.getD (i + 1) 0 := by rw [h]; exact lt_irrefl _
      rw [if_neg hc1, if_pos hc2, if_neg hr, if_pos h.symm]
    · have h1 : ¬ (0 : ℚ) < pL.getD (i + 1) 0 - pL.getD i 0 := by
        intro hc; exact absurd (sub_pos.mp hc) (not_lt.mpr h.le)
      have h2 : pL.getD (i + 1) 0 - pL.getD i 0 ≠ 0 := sub_ne_zero.mpr (ne_of_lt h)
      have hc1 : ¬ fgt (FVal.num (pL.getD (i + 1) 0 - pL.getD i 0)) (FVal.num 0) = true := by
        rw [fgt_num]; simp only [decide_eq_true_eq]; exact h1
      have hc2 : ¬ feqv (FVal.num (pL.getD (i + 1) 0 - pL.getD i 0)) (FVal.num 0) = true := by
        rw [feqv_num]; simp only [decide_eq_true_eq]; exact h2
      have h3 : ¬ pL.getD i 0 < pL.getD (i + 1) 0 := not_lt.mpr h.le
      have h4 : pL.getD (i + 1) 0 ≠ pL.getD i 0 := ne_of_lt h
      rw [if_neg hc1, if_neg hc2, if_neg h3, if_neg h4, fneg_num]
  · have hdef : sideFlowSeries Side.ask (pL.map FVal.num) (qL.map FVal.num) =
        zipWith3 (fun d qi di =>
          if flt d (FVal.num 0) then fneg qi
          else if feqv d (FVal.num 0) then di
          else qi) (diffF (pL.map FVal.num)) (qL.map FVal.num)
          (diffF (qL.map FVal.num)) := rfl
    rw [hdef, zipWith3_get?, hdp, hq1, hdq]
    simp only [Option.some_bind, Option.map_some', Option.some.injEq]
    rcases lt_trichotomy (pL.getD i 0) (pL.getD (i + 1) 0) with h | h | h
    · have h1 : ¬ pL.getD (i + 1) 0 - pL.getD i 0 < 0 := by
        intro hc; exact absurd (sub_neg.mp hc) (not_lt.mpr h.le)
      have h2 : pL.getD (i + 1) 0 - pL.getD i 0 ≠ 0 := sub_ne_zero.mpr (ne_of_gt h)
      have hc1 : ¬ flt (FVal.num (pL.getD (i + 1) 0 - pL.getD i 0)) (FVal.num 0) = true := by
        rw [flt_num]; simp only [decide_eq_true_eq]; exact h1
      have hc2 : ¬ feqv (FVal.num (pL.getD (i + 1) 0 - pL.getD i 0)) (FVal.num 0) = true := by
        rw [feqv_num]; simp only [decide_eq_true_eq]; exact h2
      have h3 : ¬ pL.getD (i + 1) 0 < pL.getD i 0 := not_lt.mpr h.le
      rw [if_neg hc1, if_neg hc2, if_neg h3]
      have h4 : pL.getD (i + 1) 0 ≠ pL.getD i 0 := ne_of_gt h
      rw [if_neg h4]
    · have h1 : pL.getD (i + 1) 0 - pL.getD i 0 = 0 := by rw [h]; ring
      have hc1 : ¬ flt (FVal.num (pL.getD (i + 1) 0 - pL.getD i 0)) (FVal.num 0) = true := by
        rw [flt_num, h1]; simp
      have hc2 : feqv (FVal.num (pL.getD (i + 1) 0 - pL.getD i 0)) (FVal.num 0) = true := by
        rw [feqv_num]; exact decide_eq_true h1
      have hr : ¬ pL.getD (i + 1) 0 < pL.getD i 0 := by rw [h]; exact lt_irrefl _
      rw [if_neg hc1, if_pos hc2, if_neg hr, if_pos h.symm]
    · have h1 : pL.getD (i + 1) 0 - pL.getD i 0 < 0 := sub_neg.mpr h
      have hc : flt (FVal.num (pL.getD (i + 1) 0 - pL.getD i 0)) (FVal.num 0) = true := by
        rw [flt_num]; exact decide_eq_true h1
      rw [if_pos hc, if_pos h, fneg_num]

/-- C1 witness: the sign rule evaluated on a concrete two-message
series where the price rises from 1 to 2 and the size from 5 to 7. -/
theorem C1_side_flow_sign_rule_witness :
    (0 + 1 < ([1, 2] : List ℚ).length) ∧
    (sideFlowSeries Side.bid ([(1 : ℚ), 2].map FVal.num) ([(5 : ℚ), 7].map FVal.num))[0 + 1]? =
      some (FVal.num 7) ∧
    (sideFlowSeries Side.ask ([(1 : ℚ), 2].map FVal.num) ([(5 : ℚ), 7].map FVal.num))[0 + 1]? =
      some (FVal.num 7) := by
  have h := C1_side_flow_sign_rule [1, 2] [5, 7] 0 (by norm_num) (by norm_num)
  refine ⟨by norm_num, ?_, ?_⟩
  · rw [h.1]; norm_num [List.getD]
  · rw [h.2]; norm_num [List.getD]

lemma LEVELS_eq : LEVELS = [0, 1, 2, 3, 4, 5, 6, 7, 8, 9] := rfl

/-- A one-message snapshot frame (the first row of a symbol's sequence):
all forty price/size columns for levels 00-09 plus `ts_event`. -/
def exC2 : Frame :=
  ⟨[0],
    (tsEventName, [FVal.num 0]) ::
    ((LEVELS.map (fun m => (pxName Side.bid m, [FVal.num 100]))) ++
     (LEVELS.map (fun m => (szName Side.bid m, [FVal.num 5]))) ++
     (LEVELS.map (fun m => (pxName Side.ask m, [FVal.num 101]))) ++
     (LEVELS.map (fun m => (szName Side.ask m, [FVal.num 7]))))⟩

/-- C2: the very first row of a symbol's sequence does NOT get a missing
flow.  `Series.diff()` yields NaN there, but both NaN comparisons of
`np.where` are false, so the first row falls into the innermost branch:
bid flow `-q`, ask flow `q`, per-message OFI `-q_bid - q_ask` — a
concrete number that is neither NaN nor excluded from the bucket sum. -/
theorem C2_first_row_flow_defined :
    sideFlowSeries Side.bid [FVal.num 100] [FVal.num 5] = [FVal.num (-5)] ∧
    sideFlowSeries Side.ask [FVal.num 101] [FVal.num 7] = [FVal.num 7] ∧
    (add_level_ofi exC2).2.getCol (ofBidName 0) = [FVal.num (-5)] ∧
    (add_level_ofi exC2).2.getCol (ofAskName 0) = [FVal.num 7] ∧
    (add_level_ofi exC2).2.getCol (ofiName 0) = [FVal.num (-12)] ∧
    (aggregate_ofi (add_level_ofi exC2).2 60 false).2.valAt 0 0 = FVal.num (-12) :=
  ⟨by with_unfolding_all rfl, by with_unfolding_all rfl, by with_unfolding_all rfl,
   by with_unfolding_all rfl, by with_unfolding_all rfl, by with_unfolding_all rfl⟩


/-!  Column-assignment lemmas. -/

lemma find?_setColAux_eq :
    ∀ (cols : List (String × List FVal)) (n : String) (v : List FVal),
      (setColAux cols n v).find? (fun c => decide (c.1 = n)) = some (n, v)
  | [], n, v => by simp [setColAux]
  | c :: rest, n, v => by
      by_cases h : c.1 = n
      · simp [setColAux, h]
      · simp [setColAux, h, find?_setColAux_eq rest n v]

lemma find?_setColAux_ne :
    ∀ (cols : List (String × List FVal)) (n : String) (v : List FVal) (m : String),
      m ≠ n →
      (setColAux cols n v).find? (fun c => decide (c.1 = m)) =
        cols.find? (fun c => decide (c.1 = m))
  | [], n, v, m, h => by
      have h1 : ¬ n = m := fun hc => h hc.symm
      simp [setColAux, h1]
  | c :: rest, n, v, m, h => by
      by_cases hc : c.1 = n
      · have h1 : ¬ n = m := fun hc2 => h hc2.symm
        have hcm : ¬ c.1 = m := by rw [hc]; exact h1
        simp [setColAux, hc, hcm, h1]
      · by_cases hm : c.1 = m
        · simp [setColAux, hc, hm, fun hc2 : m = n => h hc2]
        · simp [setColAux, hc, hm, find?_setColAux_ne rest n v m h]

lemma getCol_setCol_eq (f : Frame) (n : String) (v : List FVal) :
    (f.setCol n v).getCol n = v := by
  simp [Frame.getCol, Frame.setCol, find?_setColAux_eq]

lemma getCol_setCol_ne (f : Frame) {m n : String} (h : m ≠ n) (v : List FVal) :
    (f.setCol n v).getCol m = f.getCol m := by
  simp [Frame.getCol, Frame.setCol, find?_setColAux_ne f.cols n v m h]

lemma idx_setCol (f : Frame) (n : String) (v : List FVal) : (f.setCol n v).idx = f.idx := rfl

lemma map_fst_setColAux_mem :
    ∀ (cols : List (String × List FVal)) (n : String) (v : List FVal),
      n ∈ cols.map (fun c => c.1) →
      (setColAux cols n v).map (fun c => c.1) = cols.map (fun c => c.1)
  | [], n, v, h => by simp at h
  | c :: rest, n, v, h => by
      by_cases hc : c.1 = n
      · simp [setColAux, hc]
      · have hr : n ∈ rest.map (fun c => c.1) := by
          rcases List.mem_map.mp h with ⟨p, hp, he⟩
          rcases List.mem_cons.mp hp with hp2 | hp2
          · exact absurd (hp2 ▸ he) hc
          · exact List.mem_map.mpr ⟨p, hp2, he⟩
        simp [setColAux, hc, map_fst_setColAux_mem rest n v hr]

lemma map_fst_setColAux_not_mem :
    ∀ (cols : List (String × List FVal)) (n : String) (v : List FVal),
      n ∉ cols.map (fun c => c.1) →
      (setColAux cols n v).map (fun c => c.1) = cols.map (fun c => c.1) ++ [n]
  | [], n, v, _ => by simp [setColAux]
  | c :: rest, n, v, h => by
      have hc : ¬ c.1 = n := fun hc => h (by simp [hc])
      have hr : n ∉ rest.map (fun c => c.1) := fun hm => h (by simp [hm])
      simp [setColAux, hc, map_fst_setColAux_not_mem rest n v hr]

lemma colNames_setCol_mem (f : Frame) (n : String) (v : List FVal)
    (h : n ∈ f.colNames) : (f.setCol n v).colNames = f.colNames :=
  map_fst_setColAux_mem f.cols n v h

lemma colNames_setCol_not_mem (f : Frame) (n : String) (v : List FVal)
    (h : n ∉ f.colNames) : (f.setCol n v).colNames = f.colNames ++ [n] :=
  map_fst_setColAux_not_mem f.cols n v h

/-!  The `add_level_ofi` loop only writes the thirty generated columns. -/

/-- The column names generated by the `add_level_ofi` loop over a level
list, in write order. -/
def genCols : List Nat → List String
  | [] => []
  | m :: rest => ofBidName m :: ofAskName m :: ofiName m :: genCols rest

lemma foldl_levelStep_idx :
    ∀ (L : List Nat) (a : Frame), (L.foldl levelStep a).idx = a.idx
  | [], a => rfl
  | m :: L, a => by
      rw [List.foldl_cons, foldl_levelStep_idx L]
      rfl

lemma foldl_levelStep_getCol :
    ∀ (L : List Nat) (a : Frame) (n : String), n ∉ genCols L →
      (L.foldl levelStep a).getCol n = a.getCol n
  | [], a, n, _ => rfl
  | m :: L, a, n, h => by
      have h1 : n ≠ ofBidName m := fun hc => h (by simp [genCols, hc])
      have h2 : n ≠ ofAskName m := fun hc => h (by simp [genCols, hc])
      have h3 : n ≠ ofiName m := fun hc => h (by simp [genCols, hc])
      have h4 : n ∉ genCols L := fun hc => h (by simp [genCols, hc])
      rw [List.foldl_cons, foldl_levelStep_getCol L _ n h4]
      show ((((a.setCol (ofBidName m) _).setCol (ofAskName m) _)).setCol (ofiName m) _).getCol n = _
      rw [getCol_setCol_ne _ h3, getCol_setCol_ne _ h2, getCol_setCol_ne _ h1]

lemma levelStep_colNames (a : Frame) (m : Nat)
    (hb : ofBidName m ∉ a.colNames) (ha : ofAskName m ∉ a.colNames)
    (ho : ofiName m ∉ a.colNames) (hab : ofAskName m ≠ ofBidName m)
    (hob : ofiName m ≠ ofBidName m) (hoa : ofiName m ≠ ofAskName m) :
    (levelStep a m).colNames = a.colNames ++ [ofBidName m, ofAskName m, ofiName m] := by
  show ((((a.setCol (ofBidName m) _).setCol (ofAskName m) _)).setCol (ofiName m) _).colNames = _
  generalize hG1 : a.setCol (ofBidName m) (sideFlow a Side.bid m) = s1
  have e1 : s1.colNames = a.colNames ++ [ofBidName m] := by
    rw [← hG1]; exact colNames_setCol_not_mem a _ _ hb
  have ha2 : ofAskName m ∉ s1.colNames := by
    rw [e1]; simp [ha, hab]
  generalize hG2 : s1.setCol (ofAskName m) (sideFlow s1 Side.ask m) = s2
  have e2 : s2.colNames = s1.colNames ++ [ofAskName m] := by
    rw [← hG2]; exact colNames_setCol_not_mem s1 _ _ ha2
  have ho2 : ofiName m ∉ s2.colNames := by
    rw [e2, e1]; simp [ho, hob, hoa]
  rw [colNames_setCol_not_mem s2 _ _ ho2, e2, e1]
  simp

lemma foldl_levelStep_colNames :
    ∀ (L : List Nat) (a : Frame), (∀ s ∈ genCols L, s ∉ a.colNames) →
      (genCols L).Nodup →
      (L.foldl levelStep a).colNames = a.colNames ++ genCols L
  | [], a, _, _ => by simp [genCols]
  | m :: L, a, hfresh, hnodup => by
      obtain ⟨hbmem, hnodup1⟩ := List.nodup_cons.mp hnodup
      obtain ⟨hamem, hnodup2⟩ := List.nodup_cons.mp hnodup1
      obtain ⟨homem, hnodup3⟩ := List.nodup_cons.mp hnodup2
      have hb : ofBidName m ∉ a.colNames := hfresh _ (by simp [genCols])
      have ha : ofAskName m ∉ a.colNames := hfresh _ (by simp [genCols])
      have ho : ofiName m ∉ a.colNames := hfresh _ (by simp [genCols])
      have hab : ofAskName m ≠ ofBidName m := by
        intro hc
        exact hbmem (by rw [hc]; exact List.mem_cons_self _ _)
      have hob : ofiName m ≠ ofBidName m := by
        intro hc
        exact hbmem (by rw [hc]; simp)
      have hoa : ofiName m ≠ ofAskName m := by
        intro hc
        exact hamem (by rw [hc]; exact List.mem_cons_self _ _)
      have hstep := levelStep_colNames a m hb ha ho hab hob hoa
      have hfresh2 : ∀ s ∈ genCols L, s ∉ (levelStep a m).colNames := by
        intro s hs
        rw [hstep]
        intro hmem
        rcases List.mem_append.mp hmem with hmem | hmem
        · exact hfresh s (by simp [genCols, hs]) hmem
        · simp at hmem
          rcases hmem with h | h | h
          · exact hbmem (by simp [h ▸ hs])
          · exact hamem (by simp [h ▸ hs])
          · exact homem (h ▸ hs)
      rw [List.foldl_cons, foldl_levelStep_colNames L _ hfresh2 hnodup3, hstep]
      simp [genCols]

/-- A one-message frame with all forty price/size columns that already
contains a column named `ofi_00` (value 99). -/
def exC10 : Frame := ⟨[0], (ofiName 0, [FVal.num 99]) :: exC2.cols⟩

/-- C10 counterexample: on an input frame that already carries a column
named `ofi_00`, `add_level_ofi` overwrites that column, so the output
does not contain every input column with values unchanged. -/
theorem C10_counterexample :
    ofiName 0 ∈ exC10.colNames ∧
    (add_level_ofi exC10).2.getCol (ofiName 0) ≠ exC10.getCol (ofiName 0) := by
  constructor
  · decide
  · have h1 : (add_level_ofi exC10).2.getCol (ofiName 0) = [FVal.num (-12)] := by
      with_unfolding_all rfl
    have h2 : exC10.getCol (ofiName 0) = [FVal.num 99] := by with_unfolding_all rfl
    rw [h1, h2]
    intro hc
    have h3 : FVal.num (-12) = FVal.num 99 := List.head_eq_of_cons_eq hc
    have h4 : (-12 : ℚ) = 99 := FVal.num.injEq _ _ ▸ h3
    norm_num at h4

/-- C10 (amended): provided none of the thirty generated column names
(`of_bid_NN`, `of_ask_NN`, `ofi_NN` for levels 00-09) already occurs in
the input, the output of `add_level_ofi` keeps the input's row index,
keeps every input column with values unchanged, and appends exactly the
thirty new columns. -/
theorem C10_new_columns_amended (df : Frame) (n : String)
    (hfresh : ∀ s ∈ genCols LEVELS, s ∉ df.colNames) (hn : n ∈ df.colNames) :
    (add_level_ofi df).2.idx = df.idx ∧
    (add_level_ofi df).2.colNames = df.colNames ++ genCols LEVELS ∧
    (genCols LEVELS).length = 30 ∧ (genCols LEVELS).Nodup ∧
    (add_level_ofi df).2.getCol n = df.getCol n := by
  have hnodup : (genCols LEVELS).Nodup := by decide
  refine ⟨foldl_levelStep_idx _ _, foldl_levelStep_colNames _ _ hfresh hnodup,
    by decide, hnodup, foldl_levelStep_getCol _ _ _ ?_⟩
  intro hmem
  exact hfresh n hmem hn

/-- C10 witness: the amended statement applied to a concrete one-column
frame. -/
theorem C10_new_columns_amended_witness :
    (add_level_ofi (⟨[0], [(pxName Side.bid 0, [FVal.num 1])]⟩ : Frame)).2.idx =
      (⟨[0], [(pxName Side.bid 0, [FVal.num 1])]⟩ : Frame).idx ∧
    (add_level_ofi (⟨[0], [(pxName Side.bid 0, [FVal.num 1])]⟩ : Frame)).2.colNames =
      (⟨[0], [(pxName Side.bid 0, [FVal.num 1])]⟩ : Frame).colNames ++ genCols LEVELS ∧
    (genCols LEVELS).length = 30 ∧ (genCols LEVELS).Nodup ∧
    (add_level_ofi (⟨[0], [(pxName Side.bid 0, [FVal.num 1])]⟩ : Frame)).2.getCol
        (pxName Side.bid 0) =
      (⟨[0], [(pxName Side.bid 0, [FVal.num 1])]⟩ : Frame).getCol (pxName Side.bid 0) :=
  C10_new_columns_amended ⟨[0], [(pxName Side.bid 0, [FVal.num 1])]⟩ (pxName Side.bid 0)
    (by decide) (by decide)

/-!  The depth loop of `aggregate_ofi` only writes the `depth_NN` columns. -/

lemma foldl_depthStep_idx :
    ∀ (L : List Nat) (a : Frame), (L.foldl depthStep a).idx = a.idx
  | [], a => rfl
  | m :: L, a => by
      rw [List.foldl_cons, foldl_depthStep_idx L]
      rfl

lemma foldl_depthStep_getCol :
    ∀ (L : List Nat) (a : Frame) (n : String), (∀ m ∈ L, depthName m ≠ n) →
      (L.foldl depthStep a).getCol n = a.getCol n
  | [], a, n, _ => rfl
  | m :: L, a, n, h => by
      rw [List.foldl_cons, foldl_depthStep_getCol L _ n (fun k hk => h k (by simp [hk]))]
      exact getCol_setCol_ne a (fun hc => h m (by simp) hc.symm) _

/-- A one-message frame with the full schema `aggregate_ofi` reads when
normalising: `ts_event`, all ten `ofi_NN` columns and all twenty
`bid_sz_NN`/`ask_sz_NN` columns (31 columns in total). -/
def exC3 : Frame :=
  ⟨[0],
   (tsEventName, [FVal.num 0]) ::
   ((LEVELS.map (fun m => (ofiName m, [FVal.num 1]))) ++
    (LEVELS.map (fun m => (szName Side.bid m, [FVal.num 1]))) ++
    (LEVELS.map (fun m => (szName Side.ask m, [FVal.num 2]))))⟩

/-- C3 counterexample: on the schema-complete frame `exC3` the bar and
depth aggregations both succeed, and `aggregate_ofi` with
`normalise=True` writes the ten `depth_NN` columns into the caller's
frame (31 columns grow to 41), so the input is not left exactly as it
was. -/
theorem C3_counterexample : (aggregate_ofi exC3 60 true).1 ≠ exC3 := by
  intro hc
  have h : (aggregate_ofi exC3 60 true).1.colNames.length = 41 := by
    with_unfolding_all rfl
  rw [hc] at h
  exact absurd h (by decide)

/-- C3 (amended): `add_level_ofi` and `aggregate_ofi` with
`normalise=False` leave the caller's frame exactly as it was, and
`aggregate_ofi` with `normalise=True` keeps the row index and every
column not named `depth_NN` unchanged — but it does write the ten
`depth_NN` columns into the caller's frame. -/
theorem C3_no_mutation_amended (df : Frame) (freq : ℚ) (n : String)
    (hn : ∀ m ∈ LEVELS, depthName m ≠ n) :
    (add_level_ofi df).1 = df ∧
    (aggregate_ofi df freq false).1 = df ∧
    (aggregate_ofi df freq true).1.idx = df.idx ∧
    (aggregate_ofi df freq true).1.getCol n = df.getCol n := by
  refine ⟨rfl, rfl, ?_, ?_⟩
  · exact foldl_depthStep_idx LEVELS df
  · exact foldl_depthStep_getCol LEVELS df n hn

/-- C3 witness: the amended statement applied to the concrete frame. -/
theorem C3_no_mutation_amended_witness :
    (add_level_ofi exC3).1 = exC3 ∧
    (aggregate_ofi exC3 60 false).1 = exC3 ∧
    (aggregate_ofi exC3 60 true).1.idx = exC3.idx ∧
    (aggregate_ofi exC3 60 true).1.getCol tsEventName = exC3.getCol tsEventName :=
  C3_no_mutation_amended exC3 60 tsEventName (by decide)

/-!  Numeric evaluation lemmas for sums, means and dot products. -/

lemma foldl_fadd_num :
    ∀ (xs : List ℚ) (a : ℚ), (xs.map FVal.num).foldl fadd (FVal.num a) = FVal.num (a + xs.sum)
  | [], a => by simp
  | x :: xs, a => by
      have h : fadd (FVal.num a) (FVal.num x) = FVal.num (a + x) := rfl
      simp only [List.map_cons, List.foldl_cons, h, foldl_fadd_num xs (a + x), List.sum_cons]
      ring_nf

lemma zipWith_fmul_num :
    ∀ (vs w : List ℚ),
      List.zipWith (fun v c => fmul v (FVal.num c)) (vs.map FVal.num) w =
        (List.zipWith (fun a c => a * c) vs w).map FVal.num
  | [], _ => by simp
  | _ :: _, [] => by simp
  | v :: vs, c :: w => by
      simp only [List.map_cons, List.zipWith_cons_cons, zipWith_fmul_num vs w]
      rfl

lemma dotF_num (vs w : List ℚ) :
    dotF (vs.map FVal.num) w = FVal.num ((List.zipWith (fun a c => a * c) vs w).sum) := by
  unfold dotF
  rw [zipWith_fmul_num]
  rcases hz : List.zipWith (fun a c => a * c) vs w with _ | ⟨y, ys⟩
  · simp
  · simp only [List.map_cons]
    rw [foldl_fadd_num, List.sum_cons]

lemma sum_map_abs_nonneg : ∀ (l : List ℚ), 0 ≤ (l.map (fun y => abs y)).sum
  | [] => le_refl 0
  | x :: l => by
      simp only [List.map_cons, List.sum_cons]
      exact add_nonneg (abs_nonneg x) (sum_map_abs_nonneg l)

lemma sum_map_div : ∀ (l : List ℚ) (g : ℚ → ℚ) (s : ℚ),
    (l.map (fun x => g x / s)).sum = (l.map g).sum / s
  | [], _, s => by simp
  | x :: l, g, s => by
      simp only [List.map_cons, List.sum_cons, sum_map_div l g s]
      rw [add_div]

lemma l1Scale_abs_sum (w : List ℚ) (hw : (w.map (fun y => abs y)).sum ≠ 0) :
    ((l1Scale w).map (fun y => abs y)).sum = 1 := by
  have hpos : 0 < (w.map (fun y => abs y)).sum :=
    lt_of_le_of_ne (sum_map_abs_nonneg w) (Ne.symm hw)
  unfold l1Scale
  rw [List.map_map]
  have h : ((fun y => abs y) ∘ fun x => x / (w.map (fun y => abs y)).sum) =
      fun x => abs x / (w.map (fun y => abs y)).sum := by
    funext x
    simp only [Function.comp_apply]
    rw [abs_div, abs_of_pos hpos]
  rw [h, sum_map_div w (fun x => abs x) _, div_self hw]

/-- C8: `integrated_ofi` rescales the leading principal-direction weight
vector so its absolute values sum to 1 and returns, per bar, the dot
product of the bar's level-OFI row with the rescaled vector.  The PCA fit
is external (scikit-learn); its leading direction enters as the
parameter `w0`, whose overall sign is not fixed — the statement holds
for either sign. -/
theorem C8_integrated_l1_projection (w0 : List ℚ) (bar : Bar) (t : ℚ) (vs : List ℚ)
    (hw : (w0.map (fun y => abs y)).sum ≠ 0) (hrow : (t, vs.map FVal.num) ∈ bar.rows) :
    ((l1Scale w0).map (fun y => abs y)).sum = 1 ∧
    (t, FVal.num ((List.zipWith (fun a c => a * c) vs (l1Scale w0)).sum)) ∈
      integrated_ofi bar w0 := by
  refine ⟨l1Scale_abs_sum w0 hw, ?_⟩
  unfold integrated_ofi
  exact List.mem_map.mpr ⟨(t, vs.map FVal.num), hrow, by rw [dotF_num]⟩

/-- C8 witness: a one-bar table with row `[2, 4]` and leading direction
`[3, -1]`; the rescaled weights are `[3/4, -1/4]` and the projected value
`2 * 3/4 + 4 * (-1/4) = 1/2`. -/
theorem C8_integrated_l1_projection_witness :
    (([(3 : ℚ), -1].map (fun y => abs y)).sum ≠ 0) ∧
    ((l1Scale [3, -1]).map (fun y => abs y)).sum = 1 ∧
    ((0 : ℚ), FVal.num ((List.zipWith (fun a c => a * c) [(2 : ℚ), 4] (l1Scale [3, -1])).sum)) ∈
      integrated_ofi ⟨[ofiName 0, ofiName 1], [(0, [FVal.num 2, FVal.num 4])]⟩ [3, -1] := by
  have h := C8_integrated_l1_projection [3, -1]
    ⟨[ofiName 0, ofiName 1], [(0, [FVal.num 2, FVal.num 4])]⟩ 0 [2, 4]
    (by norm_num) (by simp)
  exact ⟨by norm_num, h.1, h.2⟩

/-!  Multi-asset alignment: the symbol-not-found condition. -/

/-- Whether the multi-asset combination signalled a failure. -/
def isErrorE : Except String (List (String × Bar)) → Bool
  | Except.error _ => true
  | Except.ok _ => false

lemma buildSymbolBars_error :
    ∀ (symbols : List String) (raw : Frame) (freq : ℚ) (normalise : Bool) (sym : String),
      sym ∈ symbols → (raw.filterRows (symbolMask raw sym)).isEmpty = true →
      ∃ e, buildSymbolBars raw freq normalise symbols = Except.error e
  | [], _, _, _, _, hmem, _ => absurd hmem (List.not_mem_nil _)
  | s :: rest, raw, freq, normalise, sym, hmem, hempty => by
      by_cases he : (raw.filterRows (symbolMask raw s)).isEmpty
      · exact ⟨"symbol " ++ s ++ " not found in raw_df", by simp [buildSymbolBars, he]⟩
      · have hsym : sym ≠ s := by
          intro hc
          rw [hc] at hempty
          exact he hempty
        have hrest : sym ∈ rest := by
          rcases List.mem_cons.mp hmem with hc | hc
          · exact absurd hc hsym
          · exact hc
        obtain ⟨e, herr⟩ := buildSymbolBars_error rest raw freq normalise sym hrest hempty
        exact ⟨e, by simp [buildSymbolBars, he, herr]⟩

/-- C9: if any requested symbol has zero rows in the raw input, the whole
multi-asset combination fails with the symbol-not-found error and no
combined output is produced. -/
theorem C9_symbol_not_found (raw : Frame) (symbols : List String) (freq : ℚ)
    (normalise : Bool) (sym : String) (hmem : sym ∈ symbols)
    (hempty : (raw.filterRows (symbolMask raw sym)).isEmpty = true) :
    isErrorE (multi_asset_ofi raw symbols freq normalise) = true := by
  obtain ⟨e, herr⟩ := buildSymbolBars_error symbols raw freq normalise sym hmem hempty
  simp [multi_asset_ofi, herr, isErrorE]

/-- C9 witness: requesting symbol `MSFT` from a raw table holding only
`AAPL` rows fails. -/
theorem C9_symbol_not_found_witness :
    ("MSFT" ∈ ["MSFT"]) ∧
    ((⟨[0], [(symbolName, [FVal.str "AAPL"])]⟩ : Frame).filterRows
        (symbolMask ⟨[0], [(symbolName, [FVal.str "AAPL"])]⟩ "MSFT")).isEmpty = true ∧
    isErrorE (multi_asset_ofi ⟨[0], [(symbolName, [FVal.str "AAPL"])]⟩ ["MSFT"] 60 true) = true :=
  ⟨by decide, by decide,
   C9_symbol_not_found ⟨[0], [(symbolName, [FVal.str "AAPL"])]⟩ ["MSFT"] 60 true "MSFT"
     (by decide) (by decide)⟩

/-!  Aggregation: evaluation of the skipna sum and mean on numeric data. -/

lemma filter_notNan_map_num (xs : List ℚ) :
    (xs.map FVal.num).filter (fun v => !v.isNan) = xs.map FVal.num := by
  apply List.filter_eq_self.mpr
  intro v hv
  rcases List.mem_map.mp hv with ⟨x, _, hx⟩
  rw [← hx]
  rfl

lemma sumMin1_map_num (x : ℚ) (xs : List ℚ) :
    sumMin1 ((x :: xs).map FVal.num) = FVal.num ((x :: xs).sum) := by
  unfold sumMin1
  rw [filter_notNan_map_num]
  simp only [List.map_cons]
  rw [foldl_fadd_num, List.sum_cons]

lemma meanF_map_num (x : ℚ) (xs : List ℚ) :
    meanF ((x :: xs).map FVal.num) =
      FVal.num ((x :: xs).sum / ((x :: xs).length : ℚ)) := by
  unfold meanF
  rw [filter_notNan_map_num]
  simp only [List.map_cons]
  rw [foldl_fadd_num]
  simp only [List.length_map]
  have hlen : ((xs.length : ℚ) + 1) ≠ 0 := by positivity
  show (if ((xs.length : ℚ) + 1) = 0 then
      (if (x + xs.sum) = 0 then FVal.nan else FVal.inf (decide (0 < x + xs.sum)))
    else FVal.num ((x + xs.sum) / ((xs.length : ℚ) + 1))) = _
  rw [if_neg hlen]
  congr 1
  rw [List.sum_cons, List.length_cons]
  push_cast
  ring

lemma zipWith_fadd_num :
    ∀ (as bs : List ℚ),
      List.zipWith fadd (as.map FVal.num) (bs.map FVal.num) =
        (List.zipWith (fun a b => a + b) as bs).map FVal.num
  | [], _ => by simp
  | _ :: _, [] => by simp
  | a :: as, b :: bs => by
      simp only [List.map_cons, List.zipWith_cons_cons, zipWith_fadd_num as bs]
      rfl

lemma fdiv_nan_right (x : FVal) : fdiv x FVal.nan = FVal.nan := by
  cases x <;> rfl

lemma fdiv_nan_left (y : FVal) : fdiv FVal.nan y = FVal.nan := by
  cases y <;> rfl

lemma fdiv_num_zero (v : ℚ) (hv : v ≠ 0) :
    fdiv (FVal.num v) (FVal.num 0) = FVal.inf (decide (0 < v)) := by
  show (if (0 : ℚ) = 0 then (if v = 0 then FVal.nan else FVal.inf (decide (0 < v)))
    else FVal.num (v / 0)) = _
  rw [if_pos rfl, if_neg hv]

lemma getD_map_f (f : FVal → FVal) (hf : f FVal.nan = FVal.nan) :
    ∀ (l : List FVal) (j : Nat), (l.map f).getD j FVal.nan = f (l.getD j FVal.nan)
  | [], j => by simp [hf]
  | x :: l, 0 => by simp
  | x :: l, j + 1 => by simpa using getD_map_f f hf l j

lemma getD_map_const_nan (names : List String) (j : Nat) :
    (names.map (fun _ => FVal.nan)).getD j FVal.nan = FVal.nan := by
  induction names generalizing j with
  | nil => simp
  | cons n names ih =>
      cases j with
      | zero => simp
      | succ j => simp [ih j]

lemma any_congr {α : Type _} :
    ∀ (l : List α) (p q : α → Bool), (∀ x ∈ l, p x = q x) → l.any p = l.any q
  | [], _, _, _ => rfl
  | x :: l, p, q, h => by
      simp only [List.any_cons, h x (List.mem_cons_self x l),
        any_congr l p q (fun y hy => h y (List.mem_cons_of_mem x hy))]

/-!  The resampling grid: bucket labels are the multiples of `freq`
covering the observed timestamps. -/

lemma foldl_min_le :
    ∀ (bs : List ℚ) (b0 x : ℚ), x ∈ b0 :: bs → bs.foldl min b0 ≤ x
  | [], b0, x, h => by
      rcases List.mem_cons.mp h with h | h
      · exact h ▸ le_refl _
      · exact absurd h (List.not_mem_nil x)
  | c :: cs, b0, x, h => by
      rcases List.mem_cons.mp h with h | h
      · calc cs.foldl min (min b0 c) ≤ min b0 c :=
              foldl_min_le cs (min b0 c) (min b0 c) (List.mem_cons_self _ _)
          _ ≤ b0 := min_le_left _ _
          _ = x := h.symm
      · rcases List.mem_cons.mp h with h2 | h2
        · calc cs.foldl min (min b0 c) ≤ min b0 c :=
                foldl_min_le cs (min b0 c) (min b0 c) (List.mem_cons_self _ _)
            _ ≤ c := min_le_right _ _
            _ = x := h2.symm
        · exact foldl_min_le cs (min b0 c) x (List.mem_cons_of_mem _ h2)

lemma le_foldl_max :
    ∀ (bs : List ℚ) (b0 x : ℚ), x ∈ b0 :: bs → x ≤ bs.foldl max b0
  | [], b0, x, h => by
      rcases List.mem_cons.mp h with h | h
      · exact h ▸ le_refl _
      · exact absurd h (List.not_mem_nil x)
  | c :: cs, b0, x, h => by
      rcases List.mem_cons.mp h with h | h
      · calc x = b0 := h
          _ ≤ max b0 c := le_max_left _ _
          _ ≤ cs.foldl max (max b0 c) :=
              le_foldl_max cs (max b0 c) (max b0 c) (List.mem_cons_self _ _)
      · rcases List.mem_cons.mp h with h2 | h2
        · calc x = c := h2
            _ ≤ max b0 c := le_max_right _ _
            _ ≤ cs.foldl max (max b0 c) :=
                le_foldl_max cs (max b0 c) (max b0 c) (List.mem_cons_self _ _)
        · exact le_foldl_max cs (max b0 c) x (List.mem_cons_of_mem _ h2)

lemma foldl_min_mem :
    ∀ (bs : List ℚ) (b0 : ℚ), bs.foldl min b0 ∈ b0 :: bs
  | [], b0 => List.mem_cons_self _ _
  | c :: cs, b0 => by
      have h := foldl_min_mem cs (min b0 c)
      rcases List.mem_cons.mp h with h | h
      · rcases min_choice b0 c with hm | hm
        · exact List.mem_cons.mpr (Or.inl (h.trans hm))
        · exact List.mem_cons.mpr (Or.inr (List.mem_cons.mpr (Or.inl (h.trans hm))))
      · exact List.mem_cons.mpr (Or.inr (List.mem_cons.mpr (Or.inr h)))

lemma foldl_max_mem :
    ∀ (bs : List ℚ) (b0 : ℚ), bs.foldl max b0 ∈ b0 :: bs
  | [], b0 => List.mem_cons_self _ _
  | c :: cs, b0 => by
      have h := foldl_max_mem cs (max b0 c)
      rcases List.mem_cons.mp h with h | h
      · rcases max_choice b0 c with hm | hm
        · exact List.mem_cons.mpr (Or.inl (h.trans hm))
        · exact List.mem_cons.mpr (Or.inr (List.mem_cons.mpr (Or.inl (h.trans hm))))
      · exact List.mem_cons.mpr (Or.inr (List.mem_cons.mpr (Or.inr h)))

lemma bucketOf_mul (freq t : ℚ) : ∃ k : ℤ, bucketOf freq t = k * freq :=
  ⟨⌊t / freq⌋, rfl⟩

lemma bucket_iff (freq : ℚ) (hf : 0 < freq) (k : ℤ) (t : ℚ) :
    bucketOf freq t = k * freq ↔ ((k : ℚ) * freq ≤ t ∧ t < (k : ℚ) * freq + freq) := by
  have hne : freq ≠ 0 := ne_of_gt hf
  have h1 : bucketOf freq t = (k : ℚ) * freq ↔ ⌊t / freq⌋ = k := by
    constructor
    · intro h
      have h2 : ((⌊t / freq⌋ : ℤ) : ℚ) = (k : ℚ) := mul_right_cancel₀ hne h
      exact_mod_cast h2
    · intro h
      rw [bucketOf, h]
  rw [h1, Int.floor_eq_iff]
  constructor
  · rintro ⟨ha, hb⟩
    constructor
    · calc (k : ℚ) * freq ≤ (t / freq) * freq := by
            exact mul_le_mul_of_nonneg_right ha (le_of_lt hf)
        _ = t := div_mul_cancel₀ t hne
    · calc t = (t / freq) * freq := (div_mul_cancel₀ t hne).symm
        _ < ((k : ℚ) + 1) * freq := by
            exact mul_lt_mul_of_pos_right hb hf
        _ = (k : ℚ) * freq + freq := by ring
  · rintro ⟨ha, hb⟩
    constructor
    · exact (le_div_iff₀ hf).mpr (by linarith)
    · rw [div_lt_iff₀ hf]
      linarith

lemma bucketGrid_cons (freq t0 : ℚ) (rest : List ℚ) :
    bucketGrid freq (t0 :: rest) =
      (List.range ((⌊((rest.map (bucketOf freq)).foldl max (bucketOf freq t0) -
          (rest.map (bucketOf freq)).foldl min (bucketOf freq t0)) / freq⌋).toNat + 1)).map
        (fun i : Nat =>
          (rest.map (bucketOf freq)).foldl min (bucketOf freq t0) + (i : ℚ) * freq) := rfl

lemma foldl_min_bucket_mul (freq t0 : ℚ) (rest : List ℚ) :
    ∃ k : ℤ, (rest.map (bucketOf freq)).foldl min (bucketOf freq t0) = k * freq := by
  have hlo := foldl_min_mem (rest.map (bucketOf freq)) (bucketOf freq t0)
  rcases List.mem_cons.mp hlo with h | h
  · rw [h]; exact bucketOf_mul freq t0
  · rcases List.mem_map.mp h with ⟨u, _, hu⟩
    rw [← hu]; exact bucketOf_mul freq u

lemma foldl_max_bucket_mul (freq t0 : ℚ) (rest : List ℚ) :
    ∃ k : ℤ, (rest.map (bucketOf freq)).foldl max (bucketOf freq t0) = k * freq := by
  have hhi := foldl_max_mem (rest.map (bucketOf freq)) (bucketOf freq t0)
  rcases List.mem_cons.mp hhi with h | h
  · rw [h]; exact bucketOf_mul freq t0
  · rcases List.mem_map.mp h with ⟨u, _, hu⟩
    rw [← hu]; exact bucketOf_mul freq u

lemma grid_mem_mul (freq : ℚ) (ts : List ℚ) (b : ℚ) (hb : b ∈ bucketGrid freq ts) :
    ∃ k : ℤ, b = k * freq := by
  cases ts with
  | nil => simp [bucketGrid] at hb
  | cons t0 rest =>
      rw [bucketGrid_cons] at hb
      rcases List.mem_map.mp hb with ⟨i, _, hi⟩
      rcases foldl_min_bucket_mul freq t0 rest with ⟨kl, hkl⟩
      refine ⟨kl + i, ?_⟩
      rw [← hi, hkl]
      push_cast
      ring

lemma bucketOf_mem_grid (freq : ℚ) (hf : 0 < freq) (ts : List ℚ) (t : ℚ) (ht : t ∈ ts) :
    bucketOf freq t ∈ bucketGrid freq ts := by
  cases ts with
  | nil => exact absurd ht (List.not_mem_nil t)
  | cons t0 rest =>
      have hne : freq ≠ 0 := ne_of_gt hf
      have hBmem : bucketOf freq t ∈ bucketOf freq t0 :: rest.map (bucketOf freq) := by
        rcases List.mem_cons.mp ht with h | h
        · exact List.mem_cons.mpr (Or.inl (by rw [h]))
        · exact List.mem_cons.mpr (Or.inr (List.mem_map.mpr ⟨t, h, rfl⟩))
      have hloB : (rest.map (bucketOf freq)).foldl min (bucketOf freq t0) ≤ bucketOf freq t :=
        foldl_min_le _ _ _ hBmem
      have hBhi : bucketOf freq t ≤ (rest.map (bucketOf freq)).foldl max (bucketOf freq t0) :=
        le_foldl_max _ _ _ hBmem
      rcases foldl_min_bucket_mul freq t0 rest with ⟨kl, hkl⟩
      rcases foldl_max_bucket_mul freq t0 rest with ⟨kh, hkh⟩
      rcases bucketOf_mul freq t with ⟨k, hk⟩
      have hklk : kl ≤ k := by
        rw [hkl, hk] at hloB
        have h2 : (kl : ℚ) ≤ (k : ℚ) := le_of_mul_le_mul_right hloB hf
        exact_mod_cast h2
      have hkkh : k ≤ kh := by
        rw [hk, hkh] at hBhi
        have h2 : (k : ℚ) ≤ (kh : ℚ) := le_of_mul_le_mul_right hBhi hf
        exact_mod_cast h2
      rw [bucketGrid_cons]
      refine List.mem_map.mpr ⟨(k - kl).toNat, ?_, ?_⟩
      · refine List.mem_range.mpr ?_
        have hdiff : ((rest.map (bucketOf freq)).foldl max (bucketOf freq t0) -
            (rest.map (bucketOf freq)).foldl min (bucketOf freq t0)) / freq =
            ((kh - kl : ℤ) : ℚ) := by
          rw [hkl, hkh]
          field_simp
          ring
        rw [hdiff, Int.floor_intCast]
        have h3 : (k - kl).toNat ≤ (kh - kl).toNat := Int.toNat_le_toNat (by omega)
        omega
      · rw [hkl, hk]
        have h4 : (((k - kl).toNat : ℕ) : ℚ) = ((k : ℚ) - (kl : ℚ)) := by
          have h5 : ((k - kl).toNat : ℤ) = k - kl := Int.toNat_of_nonneg (by omega)
          have h6 : ((((k - kl).toNat : ℕ) : ℤ) : ℚ) = ((k - kl : ℤ) : ℚ) := by
            rw [h5]
          push_cast at h6
          linarith
        rw [h4]
        ring

lemma grid_nodup (freq : ℚ) (hf : 0 < freq) (ts : List ℚ) : (bucketGrid freq ts).Nodup := by
  cases ts with
  | nil => simp [bucketGrid]
  | cons t0 rest =>
      rw [bucketGrid_cons]
      refine List.Nodup.map ?_ (List.nodup_range _)
      intro i j hij
      have h1 : (i : ℚ) * freq = (j : ℚ) * freq := by
        have := add_left_cancel hij
        exact this
      have h2 : (i : ℚ) = (j : ℚ) := mul_right_cancel₀ (ne_of_gt hf) h1
      exact_mod_cast h2

/-!  The messages contributing to one bucket. -/

/-- The column entries whose timestamp's bucket is `b` (rational view). -/
def msgsIn (freq b : ℚ) (ts : List ℚ) (xs : List ℚ) : List ℚ :=
  ((ts.zip xs).filter (fun pr => decide (bucketOf freq pr.1 = b))).map (fun pr => pr.2)

lemma valuesInBucket_map_num :
    ∀ (ts xs : List ℚ) (freq b : ℚ),
      valuesInBucket freq ts (xs.map FVal.num) b = (msgsIn freq b ts xs).map FVal.num
  | [], xs, freq, b => by simp [valuesInBucket, msgsIn]
  | t :: ts, [], freq, b => by simp [valuesInBucket, msgsIn]
  | t :: ts, x :: xs, freq, b => by
      have ih := valuesInBucket_map_num ts xs freq b
      simp only [valuesInBucket, msgsIn] at ih ⊢
      by_cases h : bucketOf freq t = b
      · simp [List.filter_cons, h, ih]
      · simp [List.filter_cons, h, ih]

lemma zip_filter_nil_iff {α : Type _} (p : ℚ → Bool) :
    ∀ (ts : List ℚ) (xs : List α), xs.length = ts.length →
      (((ts.zip xs).filter (fun pr => p pr.1)) = [] ↔ ts.filter p = [])
  | [], xs, _ => by simp
  | t :: ts, [], h => by simp at h
  | t :: ts, x :: xs, h => by
      have h2 : xs.length = ts.length := by simpa using h
      by_cases hp : p t
      · simp [List.filter_cons, hp]
      · simp [List.filter_cons, hp, zip_filter_nil_iff p ts xs h2]

lemma filterMap_eq_filter_map {β : Type _} :
    ∀ (l : List ℚ) (F : ℚ → Option β) (c : ℚ → Bool) (G : ℚ → β),
      (∀ b ∈ l, F b = if c b then some (G b) else none) →
      l.filterMap F = (l.filter c).map G
  | [], _, _, _, _ => rfl
  | b :: l, F, c, G, h => by
      have hb := h b (List.mem_cons_self _ _)
      have ih := filterMap_eq_filter_map l F c G (fun x hx => h x (List.mem_cons_of_mem _ hx))
      by_cases hc : c b
      · simp [List.filterMap_cons, List.filter_cons, hb, hc, ih]
      · simp [List.filterMap_cons, List.filter_cons, hb, hc, ih]

lemma msgsIn_interval (freq : ℚ) (hf : 0 < freq) (k : ℤ) (ts xs : List ℚ) :
    msgsIn freq ((k : ℚ) * freq) ts xs =
      ((ts.zip xs).filter (fun pr =>
        decide ((k : ℚ) * freq ≤ pr.1 ∧ pr.1 < (k : ℚ) * freq + freq))).map (fun pr => pr.2) := by
  unfold msgsIn
  congr 1
  apply List.filter_congr
  intro pr _
  exact decide_eq_decide.mpr (bucket_iff freq hf k pr.1)

/-- The resample-and-drop chain evaluated on all-numeric columns: one row
per bucket of the grid that contains at least one message, holding the
per-column aggregate of the bucket's values; empty buckets are the NaN
rows removed by `dropna`. -/
lemma resampleDropna_rows (agg : List FVal → FVal) (freq : ℚ) (tsL : List ℚ)
    (cols : List (String × List ℚ))
    (hcols : cols ≠ [])
    (hlen : ∀ c ∈ cols, c.2.length = tsL.length)
    (hagg_nil : agg [] = FVal.nan)
    (hagg_num : ∀ (x : ℚ) (xs : List ℚ), ∃ y : ℚ, agg ((x :: xs).map FVal.num) = FVal.num y) :
    (resampleDropna agg freq tsL (cols.map (fun c => (c.1, c.2.map FVal.num)))).rows =
      ((bucketGrid freq tsL).filter
        (fun b => tsL.any (fun t => decide (bucketOf freq t = b)))).map
        (fun b => (b, cols.map (fun c => agg ((msgsIn freq b tsL c.2).map FVal.num)))) := by
  apply filterMap_eq_filter_map
  intro b _
  have hrow : (cols.map (fun c => (c.1, c.2.map FVal.num))).map
      (fun c => agg (valuesInBucket freq tsL c.2 b)) =
      cols.map (fun c => agg ((msgsIn freq b tsL c.2).map FVal.num)) := by
    rw [List.map_map]
    apply List.map_congr_left
    intro c _
    simp only [Function.comp_apply]
    rw [valuesInBucket_map_num]
  by_cases hany : tsL.any (fun t => decide (bucketOf freq t = b))
  · have htf : tsL.filter (fun t => decide (bucketOf freq t = b)) ≠ [] := by
      rcases List.any_eq_true.mp hany with ⟨t, ht, hp⟩
      intro hnil
      exact (List.filter_eq_nil_iff.mp hnil t ht) hp
    have hnonan : ∀ c ∈ cols, (agg ((msgsIn freq b tsL c.2).map FVal.num)).isNan = false := by
      intro c hc
      have hmne : msgsIn freq b tsL c.2 ≠ [] := by
        intro hnil
        unfold msgsIn at hnil
        have hzf : (tsL.zip c.2).filter (fun pr => decide (bucketOf freq pr.1 = b)) = [] :=
          List.map_eq_nil_iff.mp hnil
        exact htf ((zip_filter_nil_iff _ tsL c.2 (hlen c hc)).mp hzf)
      rcases List.exists_cons_of_ne_nil hmne with ⟨z, zs, hz⟩
      rw [hz]
      rcases hagg_num z zs with ⟨y, hy⟩
      rw [hy]
      rfl
    have hanyn : ((cols.map (fun c => (c.1, c.2.map FVal.num))).map
        (fun c => agg (valuesInBucket freq tsL c.2 b))).any FVal.isNan = false := by
      rw [hrow]
      apply List.any_eq_false.mpr
      intro v hv
      rcases List.mem_map.mp hv with ⟨c, hc, hvc⟩
      rw [← hvc]
      simp [hnonan c hc]
    rw [if_pos hany]
    show (if _ = true then _ else _) = _
    rw [hanyn]
    simp only [Bool.false_eq_true, if_false, Option.some.injEq]
    exact congrArg (fun r => (b, r)) hrow
  · have htf : tsL.filter (fun t => decide (bucketOf freq t = b)) = [] := by
      apply List.filter_eq_nil_iff.mpr
      intro t ht
      have := List.any_eq_false.mp (Bool.eq_false_iff.mpr hany) t ht
      exact this
    have hrow0 : cols.map (fun c => agg ((msgsIn freq b tsL c.2).map FVal.num)) =
        cols.map (fun _ => FVal.nan) := by
      apply List.map_congr_left
      intro c hc
      have hm : msgsIn freq b tsL c.2 = [] := by
        unfold msgsIn
        rw [(zip_filter_nil_iff _ tsL c.2 (hlen c hc)).mpr htf]
        rfl
      rw [hm]
      exact hagg_nil
    have hanyn : ((cols.map (fun c => (c.1, c.2.map FVal.num))).map
        (fun c => agg (valuesInBucket freq tsL c.2 b))).any FVal.isNan = true := by
      rw [hrow, hrow0]
      rcases List.exists_cons_of_ne_nil hcols with ⟨c0, cr, hc0⟩
      rw [hc0]
      simp [FVal.isNan]
    rw [if_neg hany]
    show (if _ = true then _ else _) = _
    rw [hanyn]
    simp

/-- C5: with `normalise=False`, the bar table has exactly one row per
half-open bucket `[b, b + freq)` containing at least one message, the
value per level is exactly the sum of the per-message OFI values whose
timestamp falls in that bucket, every message's timestamp falls in some
emitted bucket, and a bucket with zero contributing messages does not
appear in the output at all. -/
theorem C5_bar_sums (df : Frame) (freq : ℚ) (tsL : List ℚ) (ofiL : Nat → List ℚ)
    (t bEmpty : ℚ)
    (hf : 0 < freq)
    (hts : df.getCol tsEventName = tsL.map FVal.num)
    (hofi : ∀ m ∈ LEVELS, df.getCol (ofiName m) = (ofiL m).map FVal.num ∧
      (ofiL m).length = tsL.length)
    (ht : t ∈ tsL)
    (hbe : ∀ u ∈ tsL, ¬ (bEmpty ≤ u ∧ u < bEmpty + freq)) :
    (aggregate_ofi df freq false).2.rows =
      ((bucketGrid freq tsL).filter
        (fun b => tsL.any (fun u => decide (b ≤ u ∧ u < b + freq)))).map
        (fun b => (b, LEVELS.map (fun m => FVal.num
          ((((tsL.zip (ofiL m)).filter
            (fun pr => decide (b ≤ pr.1 ∧ pr.1 < b + freq))).map (fun pr => pr.2)).sum)))) ∧
    (bucketOf freq t ∈ (aggregate_ofi df freq false).2.times ∧
      bucketOf freq t ≤ t ∧ t < bucketOf freq t + freq) ∧
    bEmpty ∉ (aggregate_ofi df freq false).2.times ∧
    (aggregate_ofi df freq false).2.times.Nodup := by
  have htsq : getColQ df tsEventName = tsL := by
    rw [getColQ, hts, List.map_map]
    have h1 : tsL.map (FVal.toNumD ∘ FVal.num) = tsL.map id :=
      List.map_congr_left (fun x _ => rfl)
    rw [h1, List.map_id]
  have hcolseq : ofiFrameCols df =
      (LEVELS.map (fun m => (ofiName m, ofiL m))).map (fun c => (c.1, c.2.map FVal.num)) := by
    rw [ofiFrameCols, List.map_map]
    apply List.map_congr_left
    intro m hm
    simp only [Function.comp_apply]
    rw [(hofi m hm).1]
  have hmaster := resampleDropna_rows sumMin1 freq tsL
    (LEVELS.map (fun m => (ofiName m, ofiL m)))
    (by simp [LEVELS_eq])
    (by intro c hc
        rcases List.mem_map.mp hc with ⟨m, hm, hmc⟩
        rw [← hmc]
        exact (hofi m hm).2)
    rfl
    (fun x xs => ⟨(x :: xs).sum, sumMin1_map_num x xs⟩)
  have hrows : (aggregate_ofi df freq false).2.rows =
      ((bucketGrid freq tsL).filter
        (fun b => tsL.any (fun u => decide (bucketOf freq u = b)))).map
        (fun b => (b, LEVELS.map
          (fun m => sumMin1 ((msgsIn freq b tsL (ofiL m)).map FVal.num)))) := by
    show (resampleDropna sumMin1 freq (getColQ df tsEventName) (ofiFrameCols df)).rows = _
    rw [htsq, hcolseq, hmaster]
    apply List.map_congr_left
    intro b _
    rfl
  have htimes : (aggregate_ofi df freq false).2.times =
      (bucketGrid freq tsL).filter (fun b => tsL.any (fun u => decide (bucketOf freq u = b))) := by
    show (aggregate_ofi df freq false).2.rows.map (fun r => r.1) = _
    rw [hrows, List.map_map]
    calc ((bucketGrid freq tsL).filter
          (fun b => tsL.any (fun u => decide (bucketOf freq u = b)))).map
          ((fun r : ℚ × List FVal => r.1) ∘ (fun b => (b, LEVELS.map
            (fun m => sumMin1 ((msgsIn freq b tsL (ofiL m)).map FVal.num))))) =
        ((bucketGrid freq tsL).filter
          (fun b => tsL.any (fun u => decide (bucketOf freq u = b)))).map id :=
          List.map_congr_left (fun b _ => rfl)
      _ = _ := List.map_id _
  refine ⟨?_, ⟨?_, ?_, ?_⟩, ?_, ?_⟩
  · rw [hrows]
    have hfc : (bucketGrid freq tsL).filter
          (fun b => tsL.any (fun u => decide (bucketOf freq u = b))) =
        (bucketGrid freq tsL).filter
          (fun b => tsL.any (fun u => decide (b ≤ u ∧ u < b + freq))) := by
      apply List.filter_congr
      intro b hb
      rcases grid_mem_mul freq tsL b hb with ⟨k, hk⟩
      subst hk
      apply any_congr
      intro u _
      exact decide_eq_decide.mpr (bucket_iff freq hf k u)
    rw [hfc]
    apply List.map_congr_left
    intro b hbmem
    have hb_grid : b ∈ bucketGrid freq tsL := (List.mem_filter.mp hbmem).1
    have hb_any : tsL.any (fun u => decide (b ≤ u ∧ u < b + freq)) = true :=
      (List.mem_filter.mp hbmem).2
    rcases grid_mem_mul freq tsL b hb_grid with ⟨k, hk⟩
    subst hk
    congr 1
    apply List.map_congr_left
    intro m hm
    rw [msgsIn_interval freq hf k tsL (ofiL m)]
    have hselne : (((tsL.zip (ofiL m)).filter (fun pr =>
        decide ((k : ℚ) * freq ≤ pr.1 ∧ pr.1 < (k : ℚ) * freq + freq))).map
          (fun pr => pr.2)) ≠ [] := by
      rcases List.any_eq_true.mp hb_any with ⟨u, hu, hup⟩
      intro hnil
      have hzf := List.map_eq_nil_iff.mp hnil
      have hfnil := (zip_filter_nil_iff
        (fun u => decide ((k : ℚ) * freq ≤ u ∧ u < (k : ℚ) * freq + freq))
        tsL (ofiL m) (hofi m hm).2).mp hzf
      exact (List.filter_eq_nil_iff.mp hfnil u hu) hup
    rcases List.exists_cons_of_ne_nil hselne with ⟨z, zs, hz⟩
    rw [hz]
    exact sumMin1_map_num z zs
  · rw [htimes]
    apply List.mem_filter.mpr
    refine ⟨bucketOf_mem_grid freq hf tsL t ht, ?_⟩
    apply List.any_eq_true.mpr
    exact ⟨t, ht, by simp⟩
  · have h1 : ((⌊t / freq⌋ : ℤ) : ℚ) ≤ t / freq := Int.floor_le _
    calc bucketOf freq t = ((⌊t / freq⌋ : ℤ) : ℚ) * freq := rfl
      _ ≤ (t / freq) * freq := mul_le_mul_of_nonneg_right h1 (le_of_lt hf)
      _ = t := div_mul_cancel₀ t (ne_of_gt hf)
  · have h2 : t / freq < ((⌊t / freq⌋ : ℤ) : ℚ) + 1 := Int.lt_floor_add_one _
    calc t = (t / freq) * freq := (div_mul_cancel₀ t (ne_of_gt hf)).symm
      _ < (((⌊t / freq⌋ : ℤ) : ℚ) + 1) * freq := mul_lt_mul_of_pos_right h2 hf
      _ = bucketOf freq t + freq := by rw [bucketOf]; ring
  · rw [htimes]
    intro hmem
    have hb_grid := (List.mem_filter.mp hmem).1
    have hb_any := (List.mem_filter.mp hmem).2
    rcases List.any_eq_true.mp hb_any with ⟨u, hu, hup⟩
    rcases grid_mem_mul freq tsL bEmpty hb_grid with ⟨k, hk⟩
    have hbu : bucketOf freq u = (k : ℚ) * freq := by
      rw [← hk]
      exact of_decide_eq_true hup
    have hiv := (bucket_iff freq hf k u).mp hbu
    exact hbe u hu (by rw [hk]; exact hiv)
  · rw [htimes]
    exact (grid_nodup freq hf tsL).filter _

/-- A two-message OFI frame with timestamps 0 and 130: at one-minute
frequency the grid is `[0, 60, 120]` and bucket 60 holds no message. -/
def exC5 : Frame :=
  ⟨[0, 1],
   (tsEventName, [FVal.num 0, FVal.num 130]) ::
    LEVELS.map (fun m => (ofiName m,
      if m = 0 then [FVal.num 1, FVal.num (-4)] else [FVal.num 0, FVal.num 0]))⟩

/-- C5 witness: the bar-sum statement applied to the concrete two-message
frame; message 0 lands in the emitted bucket 0 and the empty bucket 60 is
absent from the output. -/
theorem C5_bar_sums_witness :
    ((0 : ℚ) < 60) ∧ ((0 : ℚ) ∈ [(0 : ℚ), 130]) ∧
    (bucketOf 60 0 ∈ (aggregate_ofi exC5 60 false).2.times ∧
      bucketOf 60 0 ≤ 0 ∧ (0 : ℚ) < bucketOf 60 0 + 60) ∧
    (60 : ℚ) ∉ (aggregate_ofi exC5 60 false).2.times ∧
    (aggregate_ofi exC5 60 false).2.times.Nodup := by
  have h := C5_bar_sums exC5 60 [0, 130] (fun m => if m = 0 then [1, -4] else [0, 0]) 0 60
    (by norm_num)
    (by decide)
    (by decide)
    (by decide)
    (of_decide_eq_true (by with_unfolding_all rfl))
  exact ⟨by norm_num, by decide, h.2.1, h.2.2.1, h.2.2.2⟩

lemma fdiv_num_num (a b : ℚ) (hb : b ≠ 0) :
    fdiv (FVal.num a) (FVal.num b) = FVal.num (a / b) := by
  show (if b = 0 then (if a = 0 then FVal.nan else FVal.inf (decide (0 < a)))
    else FVal.num (a / b)) = _
  rw [if_neg hb]

lemma find?_map_pair {α : Type _} :
    ∀ (u : List ℚ) (g : ℚ → α) (t : ℚ), t ∈ u →
      List.find? (fun pr => decide (pr.1 = t)) (u.map (fun s => (s, g s))) = some (t, g t)
  | [], _, t, ht => absurd ht (List.not_mem_nil t)
  | s :: u, g, t, ht => by
      by_cases hst : s = t
      · subst hst
        simp [List.find?_cons]
      · have ht2 : t ∈ u := by
          rcases List.mem_cons.mp ht with h | h
          · exact absurd h.symm hst
          · exact h
        simp [List.find?_cons, hst, find?_map_pair u g t ht2]

lemma mem_mergeUnion :
    ∀ (xs ys : List ℚ) (a : ℚ), a ∈ mergeUnion xs ys ↔ (a ∈ xs ∨ a ∈ ys)
  | [], ys, a => by simp [mergeUnion]
  | x :: xs, [], a => by simp [mergeUnion]
  | x :: xs, y :: ys, a => by
      by_cases h1 : x < y
      · rw [show mergeUnion (x :: xs) (y :: ys) = x :: mergeUnion xs (y :: ys) from by
          simp [mergeUnion, h1]]
        simp only [List.mem_cons, mem_mergeUnion xs (y :: ys) a]
        tauto
      · by_cases h2 : y < x
        · rw [show mergeUnion (x :: xs) (y :: ys) = y :: mergeUnion (x :: xs) ys from by
            simp [mergeUnion, h1, h2]]
          simp only [List.mem_cons, mem_mergeUnion (x :: xs) ys a]
          tauto
        · rw [show mergeUnion (x :: xs) (y :: ys) = x :: mergeUnion xs ys from by
            simp [mergeUnion, h1, h2]]
          have hxy : x = y := le_antisymm (not_lt.mp h2) (not_lt.mp h1)
          simp only [List.mem_cons, mem_mergeUnion xs ys a, hxy]
          tauto
termination_by xs ys => xs.length + ys.length

lemma barDiv_times (bar : Bar) (dvs : List (ℚ × FVal)) :
    (barDiv bar dvs).times = mergeUnion bar.times (dvs.map (fun d => d.1)) := by
  show ((mergeUnion bar.times (dvs.map (fun d => d.1))).map
      (fun s => (s, (bar.rowAt s).map (fun v => fdiv v (seriesLookup dvs s))))).map
      (fun r => r.1) = _
  rw [List.map_map]
  calc (mergeUnion bar.times (dvs.map (fun d => d.1))).map
        ((fun r : ℚ × List FVal => r.1) ∘ (fun s =>
          (s, (bar.rowAt s).map (fun v => fdiv v (seriesLookup dvs s))))) =
      (mergeUnion bar.times (dvs.map (fun d => d.1))).map id :=
        List.map_congr_left (fun s _ => rfl)
    _ = _ := List.map_id _

lemma barDiv_rowAt (bar : Bar) (dvs : List (ℚ × FVal)) (t : ℚ)
    (ht : t ∈ mergeUnion bar.times (dvs.map (fun d => d.1))) :
    (barDiv bar dvs).rowAt t = (bar.rowAt t).map (fun v => fdiv v (seriesLookup dvs t)) := by
  have h : List.find? (fun r => decide (r.1 = t)) (barDiv bar dvs).rows =
      some (t, (bar.rowAt t).map (fun v => fdiv v (seriesLookup dvs t))) := by
    show List.find? (fun r => decide (r.1 = t))
      ((mergeUnion bar.times (dvs.map (fun d => d.1))).map
        (fun s => (s, (bar.rowAt s).map (fun v => fdiv v (seriesLookup dvs s))))) = _
    exact find?_map_pair _ _ _ ht
  show (match List.find? (fun r => decide (r.1 = t)) (barDiv bar dvs).rows with
    | some r => r.2
    | none => (barDiv bar dvs).names.map (fun _ => FVal.nan)) = _
  rw [h]

lemma barDiv_valAt (bar : Bar) (dvs : List (ℚ × FVal)) (t : ℚ)
    (ht : t ∈ mergeUnion bar.times (dvs.map (fun d => d.1))) (j : Nat) :
    (barDiv bar dvs).valAt t j = fdiv (bar.valAt t j) (seriesLookup dvs t) := by
  unfold Bar.valAt
  rw [barDiv_rowAt bar dvs t ht]
  exact getD_map_f (fun v => fdiv v (seriesLookup dvs t)) (fdiv_nan_left _) (bar.rowAt t) j

lemma rowAt_not_mem (bar : Bar) (t : ℚ) (ht : t ∉ bar.times) :
    bar.rowAt t = bar.names.map (fun _ => FVal.nan) := by
  unfold Bar.rowAt
  rw [List.find?_eq_none.mpr]
  intro r hr
  simp only [decide_eq_true_eq]
  intro hc
  exact ht (hc ▸ List.mem_map.mpr ⟨r, hr, rfl⟩)

lemma foldl_depthStep_val :
    ∀ (L : List Nat) (a : Frame) (m : Nat), m ∈ L → (L.map depthName).Nodup →
      (∀ k ∈ L, depthName k ≠ szName Side.bid m ∧ depthName k ≠ szName Side.ask m) →
      (L.foldl depthStep a).getCol (depthName m) =
        List.zipWith fadd (a.getCol (szName Side.bid m)) (a.getCol (szName Side.ask m))
  | [], _, m, hm, _, _ => absurd hm (List.not_mem_nil m)
  | k :: L, a, m, hm, hnodup, hsz => by
      obtain ⟨hknot, hnd⟩ := List.nodup_cons.mp hnodup
      rw [List.foldl_cons]
      by_cases hkm : k = m
      · subst hkm
        have hpres : ∀ k2 ∈ L, depthName k2 ≠ depthName k := by
          intro k2 hk2 hc
          exact hknot (hc ▸ List.mem_map.mpr ⟨k2, hk2, rfl⟩)
        rw [foldl_depthStep_getCol L (depthStep a k) (depthName k) hpres]
        exact getCol_setCol_eq a _ _
      · have hm2 : m ∈ L := by
          rcases List.mem_cons.mp hm with h | h
          · exact absurd h.symm hkm
          · exact h
        have hszk := hsz k (List.mem_cons_self _ _)
        rw [foldl_depthStep_val L (depthStep a k) m hm2 hnd
          (fun k2 hk2 => hsz k2 (List.mem_cons_of_mem _ hk2))]
        unfold depthStep
        rw [getCol_setCol_ne a (Ne.symm hszk.1) _, getCol_setCol_ne a (Ne.symm hszk.2) _]

lemma meanF_levels_div2 (μ : Nat → ℚ) :
    fdiv (meanF ((LEVELS.map μ).map FVal.num)) (FVal.num 2) =
      FVal.num (((LEVELS.map μ).sum / 10) / 2) := by
  rw [LEVELS_eq]
  rw [show ([0, 1, 2, 3, 4, 5, 6, 7, 8, 9].map μ) = μ 0 :: [1, 2, 3, 4, 5, 6, 7, 8, 9].map μ
    from rfl]
  rw [meanF_map_num, fdiv_num_num _ 2 (by norm_num)]
  congr 1

set_option maxHeartbeats 1000000 in
/-- C6: the divisor of the normalised aggregation is, per bucket, the
per-level mean over the bucket's messages of (bid size + ask size),
averaged across the 10 levels and divided by 2; and the same single
per-bucket divisor is applied to every level's summed OFI (the output
value at any level position `j` is the bar value divided by that one
divisor). -/
theorem C6_depth_divisor (df : Frame) (freq : ℚ) (tsL : List ℚ) (bidL askL : Nat → List ℚ)
    (b : ℚ) (j : Nat)
    (hf : 0 < freq)
    (hts : df.getCol tsEventName = tsL.map FVal.num)
    (hsz : ∀ m ∈ LEVELS,
      df.getCol (szName Side.bid m) = (bidL m).map FVal.num ∧
      df.getCol (szName Side.ask m) = (askL m).map FVal.num ∧
      (bidL m).length = tsL.length ∧ (askL m).length = tsL.length)
    (hb : b ∈ (depthBarOf df freq).map (fun d => d.1)) :
    seriesLookup (depthBarOf df freq) b =
      FVal.num (((LEVELS.map (fun m =>
        (((tsL.zip (List.zipWith (fun x y => x + y) (bidL m) (askL m))).filter
          (fun pr => decide (b ≤ pr.1 ∧ pr.1 < b + freq))).map (fun pr => pr.2)).sum /
        ((((tsL.zip (List.zipWith (fun x y => x + y) (bidL m) (askL m))).filter
          (fun pr => decide (b ≤ pr.1 ∧ pr.1 < b + freq))).map (fun pr => pr.2)).length : ℚ))).sum
        / 10) / 2) ∧
    (aggregate_ofi df freq true).2.valAt b j =
      fdiv ((barOf df freq).valAt b j) (seriesLookup (depthBarOf df freq) b) := by
  have hts2 : (dfWithDepth df).getCol tsEventName = tsL.map FVal.num := by
    show (LEVELS.foldl depthStep df).getCol tsEventName = _
    rw [foldl_depthStep_getCol LEVELS df tsEventName (by decide), hts]
  have htsq2 : getColQ (dfWithDepth df) tsEventName = tsL := by
    rw [getColQ, hts2, List.map_map]
    have h1 : tsL.map (FVal.toNumD ∘ FVal.num) = tsL.map id :=
      List.map_congr_left (fun x _ => rfl)
    rw [h1, List.map_id]
  have hszOK : ∀ m ∈ LEVELS, ∀ k ∈ LEVELS,
      depthName k ≠ szName Side.bid m ∧ depthName k ≠ szName Side.ask m := by decide
  have hdcol : ∀ m ∈ LEVELS, (dfWithDepth df).getCol (depthName m) =
      (List.zipWith (fun x y => x + y) (bidL m) (askL m)).map FVal.num := by
    intro m hm
    show (LEVELS.foldl depthStep df).getCol (depthName m) = _
    rw [foldl_depthStep_val LEVELS df m hm (by decide) (fun k hk => hszOK m hm k hk)]
    rw [(hsz m hm).1, (hsz m hm).2.1, zipWith_fadd_num]
  have hdcols : depthFrameCols (dfWithDepth df) =
      (LEVELS.map (fun m =>
        (depthName m, List.zipWith (fun x y => x + y) (bidL m) (askL m)))).map
        (fun c => (c.1, c.2.map FVal.num)) := by
    rw [depthFrameCols, List.map_map]
    apply List.map_congr_left
    intro m hm
    simp only [Function.comp_apply]
    rw [hdcol m hm]
  have hlenz : ∀ m ∈ LEVELS,
      (List.zipWith (fun x y => x + y) (bidL m) (askL m)).length = tsL.length := by
    intro m hm
    rw [List.length_zipWith, (hsz m hm).2.2.1, (hsz m hm).2.2.2, min_self]
  have hmaster := resampleDropna_rows meanF freq tsL
    (LEVELS.map (fun m => (depthName m, List.zipWith (fun x y => x + y) (bidL m) (askL m))))
    (by simp [LEVELS_eq])
    (by intro c hc
        rcases List.mem_map.mp hc with ⟨m, hm, hmc⟩
        rw [← hmc]
        exact hlenz m hm)
    rfl
    (fun x xs => ⟨(x :: xs).sum / ((x :: xs).length : ℚ), meanF_map_num x xs⟩)
  have hdrows : depthBarOf df freq =
      ((bucketGrid freq tsL).filter
        (fun b2 => tsL.any (fun u => decide (bucketOf freq u = b2)))).map
        (fun b2 => (b2, fdiv (meanF (LEVELS.map (fun m => meanF
          ((msgsIn freq b2 tsL
            (List.zipWith (fun x y => x + y) (bidL m) (askL m))).map FVal.num))))
          (FVal.num 2))) := by
    show ((resampleDropna meanF freq (getColQ (dfWithDepth df) tsEventName)
        (depthFrameCols (dfWithDepth df))).rows).map
        (fun r => (r.1, fdiv (meanF r.2) (FVal.num 2))) = _
    rw [htsq2, hdcols, hmaster, List.map_map]
    apply List.map_congr_left
    intro b2 _
    rfl
  have hdtimes : (depthBarOf df freq).map (fun d => d.1) =
      (bucketGrid freq tsL).filter
        (fun b2 => tsL.any (fun u => decide (bucketOf freq u = b2))) := by
    rw [hdrows, List.map_map]
    calc ((bucketGrid freq tsL).filter
          (fun b2 => tsL.any (fun u => decide (bucketOf freq u = b2)))).map
          ((fun d : ℚ × FVal => d.1) ∘ (fun b2 => (b2, fdiv (meanF (LEVELS.map (fun m => meanF
            ((msgsIn freq b2 tsL
              (List.zipWith (fun x y => x + y) (bidL m) (askL m))).map FVal.num))))
            (FVal.num 2)))) =
        ((bucketGrid freq tsL).filter
          (fun b2 => tsL.any (fun u => decide (bucketOf freq u = b2)))).map id :=
          List.map_congr_left (fun x _ => rfl)
      _ = _ := List.map_id _
  have hbf : b ∈ (bucketGrid freq tsL).filter
      (fun b2 => tsL.any (fun u => decide (bucketOf freq u = b2))) := by
    rw [← hdtimes]
    exact hb
  have hb_grid := (List.mem_filter.mp hbf).1
  have hb_any := (List.mem_filter.mp hbf).2
  rcases grid_mem_mul freq tsL b hb_grid with ⟨k, hk⟩
  have hlookup : seriesLookup (depthBarOf df freq) b =
      fdiv (meanF (LEVELS.map (fun m => meanF ((msgsIn freq b tsL
        (List.zipWith (fun x y => x + y) (bidL m) (askL m))).map FVal.num))))
        (FVal.num 2) := by
    show (match List.find? (fun pr => decide (pr.1 = b)) (depthBarOf df freq) with
      | some pr => pr.2
      | none => FVal.nan) = _
    rw [hdrows, find?_map_pair _ _ _ hbf]
  have hsel : ∀ m ∈ LEVELS, ∃ z zs, msgsIn freq b tsL
      (List.zipWith (fun x y => x + y) (bidL m) (askL m)) = z :: zs := by
    intro m hm
    have hne : msgsIn freq b tsL
        (List.zipWith (fun x y => x + y) (bidL m) (askL m)) ≠ [] := by
      intro hnil
      unfold msgsIn at hnil
      have hzf := List.map_eq_nil_iff.mp hnil
      have hfnil := (zip_filter_nil_iff (fun u => decide (bucketOf freq u = b))
        tsL _ (hlenz m hm)).mp hzf
      rcases List.any_eq_true.mp hb_any with ⟨u, hu, hup⟩
      exact (List.filter_eq_nil_iff.mp hfnil u hu) hup
    rcases List.exists_cons_of_ne_nil hne with ⟨z, zs, hz⟩
    exact ⟨z, zs, hz⟩
  have hinner : LEVELS.map (fun m => meanF ((msgsIn freq b tsL
      (List.zipWith (fun x y => x + y) (bidL m) (askL m))).map FVal.num)) =
      (LEVELS.map (fun m =>
        (msgsIn freq b tsL (List.zipWith (fun x y => x + y) (bidL m) (askL m))).sum /
        ((msgsIn freq b tsL
          (List.zipWith (fun x y => x + y) (bidL m) (askL m))).length : ℚ))).map FVal.num := by
    rw [List.map_map]
    apply List.map_congr_left
    intro m hm
    simp only [Function.comp_apply]
    rcases hsel m hm with ⟨z, zs, hz⟩
    rw [hz, meanF_map_num]
  refine ⟨?_, ?_⟩
  · subst hk
    have hmu : (LEVELS.map (fun m =>
        (msgsIn freq ((k : ℚ) * freq) tsL
          (List.zipWith (fun x y => x + y) (bidL m) (askL m))).sum /
        ((msgsIn freq ((k : ℚ) * freq) tsL
          (List.zipWith (fun x y => x + y) (bidL m) (askL m))).length : ℚ))) =
        LEVELS.map (fun m =>
        (((tsL.zip (List.zipWith (fun x y => x + y) (bidL m) (askL m))).filter
          (fun pr => decide ((k : ℚ) * freq ≤ pr.1 ∧
            pr.1 < (k : ℚ) * freq + freq))).map (fun pr => pr.2)).sum /
        ((((tsL.zip (List.zipWith (fun x y => x + y) (bidL m) (askL m))).filter
          (fun pr => decide ((k : ℚ) * freq ≤ pr.1 ∧
            pr.1 < (k : ℚ) * freq + freq))).map (fun pr => pr.2)).length : ℚ)) := by
      apply List.map_congr_left
      intro m _
      rw [msgsIn_interval freq hf k tsL _]
    rw [hlookup, hinner, meanF_levels_div2, hmu]
  · show (barDiv (barOf df freq) (depthBarOf df freq)).valAt b j = _
    apply barDiv_valAt
    rw [mem_mergeUnion]
    right
    exact hb

/-- Three messages at 0, 60 and 120 seconds: bucket 60 has zero total
displayed depth (all sizes zero) with a nonzero OFI sum, and bucket 120
has a NaN size, so its depth row is dropped and its divisor is missing. -/
def exC4 : Frame :=
  ⟨[0, 1, 2],
   (tsEventName, [FVal.num 0, FVal.num 60, FVal.num 120]) ::
   ((LEVELS.map (fun m => (ofiName m,
      if m = 0 then [FVal.num 1, FVal.num (-4), FVal.num 7]
      else [FVal.num 0, FVal.num 0, FVal.num 0]))) ++
    (LEVELS.map (fun m => (szName Side.bid m,
      if m = 0 then [FVal.num 4, FVal.num 0, FVal.nan]
      else [FVal.num 0, FVal.num 0, FVal.num 0]))) ++
    (LEVELS.map (fun m => (szName Side.ask m,
      [FVal.num 0, FVal.num 0, FVal.num 0]))))⟩

/-- C4 counterexample: bucket 60 of `exC4` has divisor zero and OFI sum
-4, and the normalised aggregation emits negative infinity for it instead
of an undefined value. -/
theorem C4_counterexample :
    (aggregate_ofi exC4 60 true).2.valAt 60 0 = FVal.inf false := by
  with_unfolding_all rfl

/-- C4 (amended): a missing divisor does propagate as an undefined value,
but a zero divisor is not treated as an error condition — a bucket whose
divisor is zero and whose summed OFI is a nonzero `v` is emitted as the
signed infinity of `v`'s sign. -/
theorem C4_zero_divisor_amended (df : Frame) (freq : ℚ) (t t2 : ℚ) (j j2 : Nat) (v : ℚ)
    (ht : t ∈ (barOf df freq).times)
    (hbv : (barOf df freq).valAt t j = FVal.num v)
    (hv : v ≠ 0)
    (hd : seriesLookup (depthBarOf df freq) t = FVal.num 0)
    (ht2 : t2 ∈ (barOf df freq).times)
    (hd2 : seriesLookup (depthBarOf df freq) t2 = FVal.nan) :
    (aggregate_ofi df freq true).2.valAt t j = FVal.inf (decide (0 < v)) ∧
    (aggregate_ofi df freq true).2.valAt t2 j2 = FVal.nan := by
  constructor
  · have hu : t ∈ mergeUnion (barOf df freq).times
        ((depthBarOf df freq).map (fun d => d.1)) := by
      rw [mem_mergeUnion]
      left
      exact ht
    show (barDiv (barOf df freq) (depthBarOf df freq)).valAt t j = _
    rw [barDiv_valAt _ _ _ hu j, hbv, hd]
    exact fdiv_num_zero v hv
  · have hu2 : t2 ∈ mergeUnion (barOf df freq).times
        ((depthBarOf df freq).map (fun d => d.1)) := by
      rw [mem_mergeUnion]
      left
      exact ht2
    show (barDiv (barOf df freq) (depthBarOf df freq)).valAt t2 j2 = _
    rw [barDiv_valAt _ _ _ hu2 j2, hd2]
    exact fdiv_nan_right _

/-- C4 witness: the amended statement at `exC4` — bucket 60 (divisor
zero, OFI sum -4) yields negative infinity and bucket 120 (missing
divisor) yields NaN. -/
theorem C4_zero_divisor_amended_witness :
    ((60 : ℚ) ∈ (barOf exC4 60).times) ∧
    ((aggregate_ofi exC4 60 true).2.valAt 60 0 = FVal.inf (decide ((0 : ℚ) < -4)) ∧
     (aggregate_ofi exC4 60 true).2.valAt 120 0 = FVal.nan) :=
  ⟨of_decide_eq_true (by with_unfolding_all rfl),
   C4_zero_divisor_amended exC4 60 60 120 0 0 (-4)
    (of_decide_eq_true (by with_unfolding_all rfl))
    (by with_unfolding_all rfl)
    (by norm_num)
    (by with_unfolding_all rfl)
    (of_decide_eq_true (by with_unfolding_all rfl))
    (by with_unfolding_all rfl)⟩

/-- Two messages at 0 and 60 seconds whose level-0 OFI is NaN on the
first message: the OFI sum drops bucket 0 (`dropna`), while the depth
mean keeps it (all sizes are 2). -/
def exC7 : Frame :=
  ⟨[0, 1],
   (tsEventName, [FVal.num 0, FVal.num 60]) ::
   ((LEVELS.map (fun m => (ofiName m,
      if m = 0 then [FVal.nan, FVal.num 1] else [FVal.num 0, FVal.num 0]))) ++
    (LEVELS.map (fun m => (szName Side.bid m, [FVal.num 2, FVal.num 2]))) ++
    (LEVELS.map (fun m => (szName Side.ask m, [FVal.num 2, FVal.num 2]))))⟩

/-- C7 counterexample: bucket 0 of `exC7` is present in the depth mean
and absent from the OFI sum, yet it still appears as a row of the
normalised output — it is not dropped. -/
theorem C7_counterexample :
    ((0 : ℚ) ∈ (depthBarOf exC7 60).map (fun d => d.1)) ∧
    ((0 : ℚ) ∉ (barOf exC7 60).times) ∧
    ((0 : ℚ) ∈ (aggregate_ofi exC7 60 true).2.times) :=
  ⟨of_decide_eq_true (by with_unfolding_all rfl),
   of_decide_eq_true (by with_unfolding_all rfl),
   of_decide_eq_true (by with_unfolding_all rfl)⟩

/-- C7 (amended): the OFI-sum buckets and the depth-mean buckets are
combined on the union of their timestamps, not the intersection: a bucket
with a divisor but no OFI row appears in the output with NaN values
(rather than being dropped), and every OFI-sum bucket is retained. -/
theorem C7_union_amended (df : Frame) (freq : ℚ) (t s : ℚ) (j : Nat)
    (ht : t ∈ (depthBarOf df freq).map (fun d => d.1))
    (hb : t ∉ (barOf df freq).times)
    (hs : s ∈ (barOf df freq).times) :
    t ∈ (aggregate_ofi df freq true).2.times ∧
    (aggregate_ofi df freq true).2.valAt t j = FVal.nan ∧
    s ∈ (aggregate_ofi df freq true).2.times := by
  have h1 : (aggregate_ofi df freq true).2.times =
      mergeUnion (barOf df freq).times ((depthBarOf df freq).map (fun d => d.1)) :=
    barDiv_times _ _
  refine ⟨?_, ?_, ?_⟩
  · rw [h1, mem_mergeUnion]
    right
    exact ht
  · have hu : t ∈ mergeUnion (barOf df freq).times
        ((depthBarOf df freq).map (fun d => d.1)) := by
      rw [mem_mergeUnion]
      right
      exact ht
    have h2 : (barOf df freq).valAt t j = FVal.nan := by
      unfold Bar.valAt
      rw [rowAt_not_mem _ _ hb]
      exact getD_map_const_nan _ _
    show (barDiv (barOf df freq) (depthBarOf df freq)).valAt t j = _
    rw [barDiv_valAt _ _ _ hu j, h2]
    exact fdiv_nan_left _
  · rw [h1, mem_mergeUnion]
    left
    exact hs

/-- C7 witness: the amended statement at `exC7` — bucket 0 appears (with
NaN value at level 0) and the OFI-sum bucket 60 is retained. -/
theorem C7_union_amended_witness :
    ((0 : ℚ) ∉ (barOf exC7 60).times) ∧
    ((0 : ℚ) ∈ (aggregate_ofi exC7 60 true).2.times ∧
     (aggregate_ofi exC7 60 true).2.valAt 0 0 = FVal.nan ∧
     (60 : ℚ) ∈ (aggregate_ofi exC7 60 true).2.times) :=
  ⟨of_decide_eq_true (by with_unfolding_all rfl),
   C7_union_amended exC7 60 0 60 0
    (of_decide_eq_true (by with_unfolding_all rfl))
    (of_decide_eq_true (by with_unfolding_all rfl))
    (of_decide_eq_true (by with_unfolding_all rfl))⟩

/-- C6 witness: the divisor statement at `exC7`, bucket 0: every level's
depth is 2+2=4, its per-bucket mean 4, the level average 4, divided by 2
gives divisor 2, applied at every level position. -/
theorem C6_depth_divisor_witness :
    seriesLookup (depthBarOf exC7 60) 0 =
      FVal.num (((LEVELS.map (fun _ =>
        ((([(0 : ℚ), 60].zip (List.zipWith (fun x y => x + y)
            [(2 : ℚ), 2] [(2 : ℚ), 2])).filter
          (fun pr => decide ((0 : ℚ) ≤ pr.1 ∧ pr.1 < 0 + 60))).map (fun pr => pr.2)).sum /
        (((([(0 : ℚ), 60].zip (List.zipWith (fun x y => x + y)
            [(2 : ℚ), 2] [(2 : ℚ), 2])).filter
          (fun pr => decide ((0 : ℚ) ≤ pr.1 ∧ pr.1 < 0 + 60))).map (fun pr => pr.2)).length :
            ℚ))).sum / 10) / 2) ∧
    (aggregate_ofi exC7 60 true).2.valAt 0 0 =
      fdiv ((barOf exC7 60).valAt 0 0) (seriesLookup (depthBarOf exC7 60) 0) :=
  C6_depth_divisor exC7 60 [0, 60] (fun _ => [2, 2]) (fun _ => [2, 2]) 0 0
    (by norm_num)
    (by decide)
    (by decide)
    (of_decide_eq_true (by with_unfolding_all rfl))
